import Mathlib

/-!
Shallow embedding of the N-layer feed-forward network trainer in
`src/testInput.c` (functions `run`, `runWhilstTraining`,
`updateInputActivations`, `train`, `propagateWeightsFromFile`,
`saveWeights`), together with proofs settling the frozen claims.

Modelling conventions:
* C `double` values are modelled as `ℚ` (exact arithmetic; the claims under
  scrutiny are about data flow, update order and control flow, not rounding).
* The activation function and its derivative are external function pointers
  in the source (`activationFunction`, `activationFunctionPrime`); they are
  parameters here.
* The global arrays `a`, `weights`, `testCases`, `truthTable`, `Θ`, `Ψ` are
  gathered in one state record.  The offset-indexed `Θ` (1-indexed) and `Ψ`
  (2-indexed) buffers are modelled as layer-indexed lists whose rows below
  the valid range are unused, so `theta.getD n` / `psi.getD n` is the
  source's `Θ[n]` / `Ψ[n]`.
* Out-of-range reads return a default (`0` resp. `[]`); all theorems carry
  the dimension hypotheses that `allocateMemory` establishes, so defaults
  are never semantically relevant.
* The macro constants from `include/constants.h` are pinned by the loop
  comments in the source itself: `NUM_LAYER_INTERVALS = activationLayers-1`
  (line 420), `NUM_LAYER_INTERVALS_EXEMPTING_THE_LAST = activationLayers-2`
  (line 670), `PENULTIMATE_LAYER = activationLayers-2` (line 890),
  `INPUT_LAYER_INDEX = 0`, `OUTPUT_LAYER_INDEX = activationLayers-1`.
* A C `for (i = 0; i < len; i++)` loop is embedded as the combinator
  `cfor len body init` below, which applies `body 0`, `body 1`, … in order.
-/

namespace NN

abbrev QVec := List ℚ
abbrev QMat := List QVec

def getV (v : QVec) (i : ℕ) : ℚ := v.getD i 0

def getRow (m : QMat) (i : ℕ) : QVec := m.getD i []

def get2 (m : QMat) (i j : ℕ) : ℚ := getV (getRow m i) j

def getMat (w : List QMat) (n : ℕ) : QMat := w.getD n []

def get3 (w : List QMat) (n k j : ℕ) : ℚ := get2 (getMat w n) k j

def set2 (m : QMat) (i j : ℕ) (x : ℚ) : QMat := m.set i ((getRow m i).set j x)

def setMatRow (w : List QMat) (n k : ℕ) (row : QVec) : List QMat :=
  w.set n ((getMat w n).set k row)

def set3 (w : List QMat) (n k j : ℕ) (x : ℚ) : List QMat :=
  w.set n (set2 (getMat w n) k j x)

/-- C-style counted loop: `cforAux body r i s` runs `body i`, `body (i+1)`,
…, `body (i+r-1)` in order, threading the state `s`. -/
def cforAux {σ : Type} (body : ℕ → σ → σ) : ℕ → ℕ → σ → σ
  | 0, _, s => s
  | r + 1, i, s => cforAux body r (i + 1) (body i s)

/-- `cfor len body s` embeds `for (i = 0; i < len; i++) s = body(i, s)`. -/
def cfor {σ : Type} (len : ℕ) (body : ℕ → σ → σ) (s : σ) : σ :=
  cforAux body len 0 s

/-- The mutable globals of `testInput.c` that the numeric core touches. -/
structure NetState where
  lengths : List ℕ
  a : QMat
  weights : List QMat
  testCases : QMat
  truthTable : QMat
  theta : QMat
  psi : QMat
deriving DecidableEq

/-- `activationLayers`. -/
def L (st : NetState) : ℕ := st.lengths.length

/-- `lengths[n]`. -/
def len (st : NetState) (n : ℕ) : ℕ := st.lengths.getD n 0

/-- `void updateInputActivations(int testCaseIndex)` (src lines 695-702). -/
def updateInputActivations (st : NetState) (testCaseIndex : ℕ) : NetState :=
  cfor (len st 0) (fun k s =>
    { s with a := set2 s.a 0 k (get2 s.testCases testCaseIndex k) }) st

/-- `void run()` (src lines 626-642): the plain inference forward pass. -/
def run (act : ℚ → ℚ) (st : NetState) : NetState :=
  cfor (L st - 1) (fun n s =>
    cfor (len st (n + 1)) (fun j s =>
      let th := cfor (len st n)
        (fun k acc => acc + get2 s.a n k * get3 s.weights n k j) 0
      { s with a := set2 s.a (n + 1) j (act th) }) s) st

/-- Hidden-layer part of `runWhilstTraining` (src lines 657-670): intervals
`n = 0 .. activationLayers-3`, storing `Θ[n+1][j]` and `a[n+1][j]`. -/
def hiddenPhase (act : ℚ → ℚ) (st : NetState) : NetState :=
  cfor (L st - 2) (fun n s =>
    cfor (len st (n + 1)) (fun j s =>
      let th := cfor (len st n)
        (fun k acc => acc + get2 s.a n k * get3 s.weights n k j) 0
      { s with theta := set2 s.theta (n + 1) j th,
               a := set2 s.a (n + 1) j (act th) }) s) st

/-- Output-layer part of `runWhilstTraining` (src lines 672-687): with
`n = OUTPUT_LAYER_INDEX - 1`, computes `Θj` locally, sets the output
activation and `Ψ[n+1][j]`, and accumulates `ESum += ω * ω`. -/
def outputPhase (act actP : ℚ → ℚ) (st : NetState) (iteration : ℕ) :
    NetState × ℚ :=
  cfor (len st (L st - 1)) (fun j (p : NetState × ℚ) =>
    let s := p.1
    let th := cfor (len st (L st - 2))
      (fun k acc => acc + get2 s.a (L st - 2) k * get3 s.weights (L st - 2) k j) 0
    let aOut := act th
    let om := get2 s.truthTable iteration j - aOut
    ({ s with a := set2 s.a (L st - 1) j aOut,
              psi := set2 s.psi (L st - 1) j (om * actP th) },
     p.2 + om * om)) (st, 0)

/-- `double runWhilstTraining(int iteration)` (src lines 650-689).
Note the source returns `ESum / 2.0` (line 688). -/
def runWhilstTraining (act actP : ℚ → ℚ) (st : NetState) (iteration : ℕ) :
    NetState × ℚ :=
  let st1 := hiddenPhase act st
  let q := outputPhase act actP st1 iteration
  (q.1, q.2 / 2)

/-- The inner `j` loop of the backward pass (src lines 881-886 and 895-901):
for `j < lenNext`, first `Ω += Ψnext[j] * row[j]` and then, in the same
iteration, `row[j] += λ * aK * Ψnext[j]`; each element is read for `Ω`
before that same element is incremented. -/
def backInner (lam aK : ℚ) (psiNext : QVec) (lenNext : ℕ) (row : QVec) :
    ℚ × QVec :=
  cfor lenNext (fun j (p : ℚ × QVec) =>
    (p.1 + getV psiNext j * getV p.2 j,
     p.2.set j (getV p.2 j + lam * aK * getV psiNext j))) (0, row)

/-- One `k` loop of the general backward step at layer `n`
(src lines 879-889): after the inner loop, `Ψ[n][k] = Ω * f'(Θ[n][k])`. -/
def backLayerStep (lam : ℚ) (actP : ℚ → ℚ) (n : ℕ) (st : NetState) :
    NetState :=
  cfor (len st n) (fun k s =>
    let r := backInner lam (get2 s.a n k) (getRow s.psi (n + 1))
      (len st (n + 1)) (getRow (getMat s.weights n) k)
    { s with weights := setMatRow s.weights n k r.2,
             psi := set2 s.psi n k (r.1 * actP (get2 s.theta n k)) }) st

/-- `for (n = PENULTIMATE_LAYER; n >= 2; n--)` (src lines 877-890):
layers `activationLayers-2` down to `2`, i.e. `L-3` iterations with
`n = L-2-i` at iteration `i`. -/
def backGeneralPhase (lam : ℚ) (actP : ℚ → ℚ) (st : NetState) : NetState :=
  cfor (L st - 3) (fun i s => backLayerStep lam actP (L st - 2 - i) s) st

/-- The boundary step `n = 1` (src lines 892-910): `Ω`/`Ψk` as in the
general step, but `Ψk` stays in a local variable and every input-layer
weight `weights[0][m][k]` is updated from it immediately. -/
def backBoundary (lam : ℚ) (actP : ℚ → ℚ) (st : NetState) : NetState :=
  cfor (len st 1) (fun k s =>
    let r := backInner lam (get2 s.a 1 k) (getRow s.psi 2)
      (len st 2) (getRow (getMat s.weights 1) k)
    let s := { s with weights := setMatRow s.weights 1 k r.2 }
    let psik := r.1 * actP (get2 s.theta 1 k)
    cfor (len st 0) (fun m s =>
      let wN := set3 s.weights 0 m k (get3 s.weights 0 m k + lam * get2 s.a 0 m * psik)
      { s with weights := wN }) s) st

/-- The consumed configuration of `train` (externs in the source). -/
structure TrainParams where
  act : ℚ → ℚ
  actP : ℚ → ℚ
  lam : ℚ
  maxIterations : ℕ
  maxAcceptableError : ℚ
  keepAlive : ℕ
  numTestCases : ℕ

/-- The per-example body of `train`'s `it` loop (src lines 870-911). -/
def trainExample (p : TrainParams) (st : NetState) (it : ℕ) : NetState × ℚ :=
  let st := updateInputActivations st it
  let q := runWhilstTraining p.act p.actP st it
  let st := backGeneralPhase p.lam p.actP q.1
  let st := backBoundary p.lam p.actP st
  (st, q.2)

/-- `for (it = 0; it < testCaseLength; it++)` accumulating
`ESum += runWhilstTraining(it)` and applying the backward updates. -/
def trainPassAux (p : TrainParams) : ℕ → ℕ → NetState → ℚ → NetState × ℚ
  | 0, _, st, eSum => (st, eSum)
  | r + 1, it, st, eSum =>
      let q := trainExample p st it
      trainPassAux p r (it + 1) q.1 (eSum + q.2)

/-- One full pass over the dataset, starting from error accumulator
`eSum` (the source's `ESum`). -/
def trainPass (p : TrainParams) (st : NetState) (eSum : ℚ) : NetState × ℚ :=
  trainPassAux p p.numTestCases 0 st eSum

/-- The `while` loop of `train` (src lines 865-921).  `fuel` is an upper
bound on the remaining iterations; `train` passes `maxIterations + 1`,
which the guard `count ≤ maxIterations` makes exact, so the fuel never
runs out while the guard holds.  `trace` is specification-only
instrumentation recording every iteration's `(iterationsCount, EAverage)`
pair; `log` mirrors the source's conditional `printRow` output
(src lines 916-919). -/
def trainLoopAux (p : TrainParams) :
    ℕ → NetState → ℕ → ℚ → ℚ → List (ℕ × ℚ) → List (ℕ × ℚ) →
    NetState × ℕ × ℚ × List (ℕ × ℚ) × List (ℕ × ℚ)
  | 0, st, count, eAvg, _, log, trace => (st, count, eAvg, log, trace)
  | fuel + 1, st, count, eAvg, eSum, log, trace =>
      if count ≤ p.maxIterations ∧ (count = 0 ∨ eAvg > p.maxAcceptableError) then
        let q := trainPass p st eSum
        let eAvgN := q.2 / (p.numTestCases : ℚ)
        let logN := if p.keepAlive ≠ 0 ∧ (count + 1) % p.keepAlive = 0
          then log ++ [(count + 1, eAvgN)] else log
        trainLoopAux p fuel q.1 (count + 1) eAvgN 0 logN (trace ++ [(count + 1, eAvgN)])
      else (st, count, eAvg, log, trace)

/-- Result of `int train(double* finalError, int* totalIterations)`. -/
structure TrainResult where
  state : NetState
  iterationsCount : ℕ
  eAverage : ℚ
  log : List (ℕ × ℚ)
  trace : List (ℕ × ℚ)
  returnValue : ℤ
deriving DecidableEq

/-- `int train(double* finalError, int* totalIterations)`
(src lines 843-935). -/
def train (p : TrainParams) (st : NetState) : TrainResult :=
  let r := trainLoopAux p (p.maxIterations + 1) st 0 0 0 [] []
  { state := r.1, iterationsCount := r.2.1, eAverage := r.2.2.1,
    log := r.2.2.2.1, trace := r.2.2.2.2,
    returnValue := if r.2.2.1 > p.maxAcceptableError then 1 else 0 }

/-!
### Weight-file codec

The binary file is modelled as a list of typed tokens, one token per
`fwrite`/`fread` item: `txt` is the byte run of the human-readable header
line, `intB` the `sizeof(int)` bytes of one integer, `chB` one single
byte, `dbl` the `sizeof(double)` bytes of one floating-point value.  The
source leaves the numeric widths and endianness unspecified (it writes raw
memory), so this typed view is the natural shallow embedding; `fgetc`,
`fseek(file, 1, SEEK_CUR)` and `fread` consume whole tokens.  All streams
appearing in the claims are token-aligned, so no byte reinterpretation is
ever needed.
-/

inductive FTok where
  | txt : List Char → FTok
  | intB : ℤ → FTok
  | chB : Char → FTok
  | dbl : ℚ → FTok
deriving DecidableEq

/-- The header line `"weight file %s\n"` written by `saveWeights`
(src line 1083), with `networkConfiguration` as a parameter. -/
def headerChars (cfg : List Char) : List Char :=
  "weight file ".toList ++ cfg ++ ['\n']

/-- Topology header written by `saveWeights` (src lines 1103-1109): for
each layer, `fwrite(&lengths[n], sizeof(int), 1, file)` then one `'\n'`. -/
def saveHeader : List ℕ → List FTok
  | [] => []
  | e :: es => FTok.intB (Int.ofNat e) :: FTok.chB '\n' :: saveHeader es

/-- One weight row: `fwrite(weights[n][k], sizeof(double), lengths[n+1],
file)` then one `'\n'` (src lines 1116-1120).  `allocateMemory`
(src line 252) allocates row `weights[n][k]` with exactly `lengths[n+1]`
entries, so writing `lengths[n+1]` doubles from the row buffer writes the
whole row. -/
def rowTokens (row : QVec) : List FTok := row.map FTok.dbl ++ [FTok.chB '\n']

def matTokens (mat : QMat) : List FTok := (mat.map rowTokens).flatten

/-- The weight matrices written by `saveWeights` (src lines 1112-1122):
intervals `n = 0 .. NUM_LAYER_INTERVALS - 1`, rows `k = 0 .. lengths[n]-1`.
`allocateMemory` (src lines 240-255) makes matrix `n` have exactly
`lengths[n]` rows, so iterating the rows of the matrix is the `k` loop. -/
def saveBody : List ℕ → List QMat → List FTok
  | _ :: n1 :: rest, mat :: mats => matTokens mat ++ saveBody (n1 :: rest) mats
  | _, _ => []

/-- `int saveWeights()` (src lines 1069-1141): the token stream written to
the save file (the I/O error paths abort the operation and are outside the
numeric model). -/
def saveWeights (cfg : List Char) (st : NetState) : List FTok :=
  FTok.txt (headerChars cfg) :: (saveHeader st.lengths ++ saveBody st.lengths st.weights)

/-- Does this token's byte run contain the `'\n'` that ends the header
line?  (Faithful to the byte level whenever the first `'\n'` of the stream
is the final byte of its token, which holds for every file `saveWeights`
writes with a newline-free `networkConfiguration`.) -/
def lineDone : FTok → Bool
  | FTok.txt s => s.contains '\n'
  | FTok.chB c => c == '\n'
  | _ => false

/-- `while (fgetc(file) != '\n');` (src line 390).  On a stream with no
newline the source spins forever at EOF (`fgetc` keeps returning `EOF`);
that divergence is modelled as `none`. -/
def skipLine : List FTok → Option (List FTok)
  | [] => none
  | t :: r => if lineDone t then some r else skipLine r

/-- `fseek(file, 1, SEEK_CUR)` (src lines 396, 418): skip the one-byte
separator.  Only aligned streams (separator byte next) are modelled. -/
def skip1 : List FTok → List FTok
  | FTok.chB _ :: r => r
  | s => s

/-- `fread(&fileKLength, sizeof(int), 1, file)`.  On a short read the C
variable keeps an indeterminate value; it is modelled as `-1` (never a
layer length; no claim exercises this path). -/
def readIntTok : List FTok → ℤ × List FTok
  | FTok.intB v :: r => (v, r)
  | s => (-1, s)

/-- `fread(buf, sizeof(double), n, file)`: reads up to `n` doubles,
returning the values read, their count, and the rest of the stream.
A short read still stores the prefix that was read. -/
def readDoubles : ℕ → List FTok → QVec × ℕ × List FTok
  | 0, s => ([], 0, s)
  | n + 1, FTok.dbl q :: s =>
      let r := readDoubles n s
      (q :: r.1, r.2.1 + 1, r.2.2)
  | _ + 1, s => ([], 0, s)

/-- `fread` stores the items read into the front of the buffer; the tail
of the buffer keeps its old contents. -/
def overwriteFront (dest src : QVec) : QVec := src ++ dest.drop src.length

/-- Header validation loop of `propagateWeightsFromFile`
(src lines 392-405): reads one int per layer, skips the separator byte,
and flags `returnValue = -1` on any mismatch — but never stops. -/
def loadHeader : List ℕ → List FTok → ℤ → ℤ × List FTok
  | [], s, ret => (ret, s)
  | e :: es, s, ret =>
      let r := readIntTok s
      loadHeader es (skip1 r.2) (if r.1 ≠ Int.ofNat e then -1 else ret)

/-- Row-reading loop (src lines 409-419): `fread` into `weights[n][k]`,
flag `-1` on a short read, then `fseek` one byte; rows are the allocated
`lengths[n]` rows of matrix `n` (src lines 240-255). -/
def loadRows (lenNext : ℕ) : List QVec → List FTok → ℤ → List QVec × List FTok × ℤ
  | [], s, ret => ([], s, ret)
  | row :: rows, s, ret =>
      let r := readDoubles lenNext s
      let ret1 := if r.2.1 < lenNext then -1 else ret
      let q := loadRows lenNext rows (skip1 r.2.2) ret1
      (overwriteFront row r.1 :: q.1, q.2.1, q.2.2)

/-- Matrix-reading loop of `propagateWeightsFromFile` (src lines 407-420):
runs unconditionally, even when the header already mismatched. -/
def loadMatrices : List ℕ → List QMat → List FTok → ℤ → List QMat × List FTok × ℤ
  | _ :: n1 :: rest, mat :: mats, s, ret =>
      let q1 := loadRows n1 mat s ret
      let q2 := loadMatrices (n1 :: rest) mats q1.2.1 q1.2.2
      (q1.1 :: q2.1, q2.2.1, q2.2.2)
  | _, mats, s, ret => (mats, s, ret)

/-- `int propagateWeightsFromFile()` (src lines 376-426), applied to the
token stream of the opened file.  Returns the C return value and the
updated state. -/
def propagateWeightsFromFile (st : NetState) (stream : List FTok) :
    ℤ × NetState :=
  match skipLine stream with
  | none => (-1, st)
  | some s =>
      let h := loadHeader st.lengths s 0
      let m := loadMatrices st.lengths st.weights h.2 h.1
      (m.2.2, { st with weights := m.1 })

/-- Shape of the allocated weight matrices (`allocateMemory`,
src lines 240-255): matrix `n` is `lengths[n] × lengths[n+1]`, one matrix
per layer interval. -/
inductive Dims : List ℕ → List QMat → Prop
  | nil : Dims [] []
  | last (n : ℕ) : Dims [n] []
  | cons {n0 n1 : ℕ} {rest : List ℕ} {mat : QMat} {mats : List QMat} :
      mat.length = n0 → (∀ row ∈ mat, row.length = n1) →
      Dims (n1 :: rest) mats → Dims (n0 :: n1 :: rest) (mat :: mats)

/-!
### Specification-side definitions

These follow the wording of the specification, to be compared with the
embedded source functions above.
-/

/-- Spec §4.1: the "accumulated sum of squared residuals
`Σ omega_i²`" of the output layer of a state. -/
def residSumSq (st : NetState) (it : ℕ) : ℚ :=
  ∑ j ∈ Finset.range (len st (L st - 1)),
    (get2 st.truthTable it j - get2 st.a (L st - 1) j) ^ 2

/-- Spec §4.1: `Σ omega_i²` with `omega_i = truth[it][i] - f(θ_i)` and
`θ_i` the output pre-activation sum of the given (post-hidden-phase)
state. -/
def outSumSq (act : ℚ → ℚ) (st : NetState) (it : ℕ) : ℚ :=
  ∑ j ∈ Finset.range (len st (L st - 1)),
    (get2 st.truthTable it j -
      act (∑ k ∈ Finset.range (len st (L st - 2)),
        get2 st.a (L st - 2) k * get3 st.weights (L st - 2) k j)) ^ 2

/-- Spec §4.2 step 3, read side: the backward-recurrence psi values,
computed from a single pre-backward-step state.  `specPsiAux actP st d k`
is `psi[L-1-d][k]`: at `d = 0` the stored output psi, and one step down
`psi[n][k] = (Σ_j psi[n+1][j] * weight[n][k][j]) * f'(theta[n][k])`
with every `weight` read taken from the pre-update matrices. -/
def specPsiAux (actP : ℚ → ℚ) (st : NetState) : ℕ → ℕ → ℚ
  | 0, k => get2 st.psi (L st - 1) k
  | d + 1, k =>
      (∑ j ∈ Finset.range (len st (L st - 1 - d)),
        specPsiAux actP st d j * get3 st.weights (L st - 2 - d) k j)
        * actP (get2 st.theta (L st - 2 - d) k)

/-- Spec §4.2 step 4: `psi[1][k]`, computed from `psi[2]` and the
pre-update first-hidden weight matrix. -/
def specPsiOne (actP : ℚ → ℚ) (st : NetState) (k : ℕ) : ℚ :=
  (∑ j ∈ Finset.range (len st 2), get2 st.psi 2 j * get3 st.weights 1 k j)
    * actP (get2 st.theta 1 k)

/-- Spec §4.2: the per-example error contributions of one full pass, each
`Σ omega²/2` for its example, evaluated on the state as it evolves
through the pass. -/
def specErrors (p : TrainParams) : ℕ → ℕ → NetState → List ℚ
  | 0, _, _ => []
  | r + 1, it, st =>
      outSumSq p.act (hiddenPhase p.act (updateInputActivations st it)) it / 2
        :: specErrors p r (it + 1) (trainExample p st it).1

/-- Spec §4.3 / claim C8: the byte layout the claim asserts — topology
header ints, then the row-major flattened matrices, and nothing else. -/
def pureLayout (st : NetState) : List FTok :=
  st.lengths.map (fun e => FTok.intB (e : ℤ))
    ++ ((st.weights.map List.flatten).flatten).map FTok.dbl

/-- The integers of a token stream, in order. -/
def intsOf (s : List FTok) : List ℤ :=
  s.filterMap (fun t => match t with | FTok.intB v => some v | _ => none)

/-- The floating-point values of a token stream, in order. -/
def dblsOf (s : List FTok) : List ℚ :=
  s.filterMap (fun t => match t with | FTok.dbl q => some q | _ => none)

/-!
### Concrete instances used by witnesses and counterexamples
-/

/-- The identity, used as a concrete activation function in closed
evaluations (any externally supplied pointer is admissible). -/
def idQ : ℚ → ℚ := fun x => x

/-- A 1-1 network with its single weight `7`. -/
def stA : NetState :=
  { lengths := [1, 1], a := [[0], [0]], weights := [[[7]]],
    testCases := [], truthTable := [], theta := [], psi := [] }

/-- A weight file whose header claims topology 1-2 (second entry `2`
mismatches `stA`'s layer size `1`) and whose payload holds the double
`99`. -/
def streamA : List FTok :=
  [FTok.txt (headerChars ("1-2".toList)), FTok.intB 1, FTok.chB '\n',
   FTok.intB 2, FTok.chB '\n', FTok.dbl 99, FTok.chB '\n']

/-- A 1-1-1 network mid-training: input activation `1` loaded, weights
`1`, truth target `0`, staging buffers allocated. -/
def stB : NetState :=
  { lengths := [1, 1, 1], a := [[1], [0], [0]],
    weights := [[[1]], [[1]]], testCases := [[1]], truthTable := [[0]],
    theta := [[], [0], []], psi := [[], [], [0]] }

/-- A 1-1-1-1 network with allocated staging buffers and distinct values,
used to witness the backward-recurrence theorems. -/
def stC : NetState :=
  { lengths := [1, 1, 1, 1], a := [[1], [2], [3], [0]],
    weights := [[[1/2]], [[1/3]], [[1/5]]], testCases := [[1]],
    truthTable := [[0]], theta := [[], [7], [11], []],
    psi := [[], [], [0], [13]] }

/-- A 2-1 network used in the save/load round-trip witness. -/
def stD : NetState :=
  { lengths := [2, 1], a := [[0, 0], [0]], weights := [[[3], [5]]],
    testCases := [], truthTable := [], theta := [], psi := [] }

def cfgD : List Char := "2-1".toList

/-- Training parameters with `maxIterations = 0` and an unreachable error
threshold. -/
def pZero : TrainParams :=
  { act := idQ, actP := idQ, lam := 0, maxIterations := 0,
    maxAcceptableError := -1, keepAlive := 0, numTestCases := 1 }

/-- Training parameters with one iteration allowed and `keepAlive = 1`. -/
def pOne : TrainParams :=
  { act := idQ, actP := idQ, lam := 0, maxIterations := 1,
    maxAcceptableError := -1, keepAlive := 1, numTestCases := 1 }

/-!
### Basic lemmas about the accessors and the loop combinator
-/

lemma getD_set_ne {α : Type} {i i' : ℕ} (l : List α) (x d : α) (h : i ≠ i') :
    (l.set i x).getD i' d = l.getD i' d := by
  simp [List.getElem?_set_ne h]

lemma getD_set_self {α : Type} {i : ℕ} (l : List α) (x d : α)
    (h : i < l.length) : (l.set i x).getD i d = x := by
  simp [List.getElem?_set_self h]

lemma getV_set_ne (v : QVec) {i i' : ℕ} (x : ℚ) (h : i ≠ i') :
    getV (v.set i x) i' = getV v i' := getD_set_ne v x 0 h

lemma getV_set_self {v : QVec} {i : ℕ} (x : ℚ) (h : i < v.length) :
    getV (v.set i x) i = x := getD_set_self v x 0 h

lemma getRow_set_ne (m : QMat) {i i' : ℕ} (r : QVec) (h : i ≠ i') :
    getRow (m.set i r) i' = getRow m i' := getD_set_ne m r [] h

lemma getRow_set_self {m : QMat} {i : ℕ} (r : QVec) (h : i < m.length) :
    getRow (m.set i r) i = r := getD_set_self m r [] h

lemma getMat_set_ne (w : List QMat) {n n' : ℕ} (m : QMat) (h : n ≠ n') :
    getMat (w.set n m) n' = getMat w n' := getD_set_ne w m [] h

lemma getMat_set_self {w : List QMat} {n : ℕ} (m : QMat)
    (h : n < w.length) : getMat (w.set n m) n = m := getD_set_self w m [] h

lemma getRow_set2_ne (m : QMat) {i i' : ℕ} (j : ℕ) (x : ℚ) (h : i ≠ i') :
    getRow (set2 m i j x) i' = getRow m i' := getRow_set_ne m _ h

lemma cforAux_succ_right {σ : Type} (body : ℕ → σ → σ) (r i : ℕ) (s : σ) :
    cforAux body (r + 1) i s = body (i + r) (cforAux body r i s) := by
  induction r generalizing i s with
  | zero => simp [cforAux]
  | succ r ih =>
      show cforAux body (r + 1) (i + 1) (body i s) = _
      rw [ih]
      have h : i + 1 + r = i + (r + 1) := by omega
      rw [h]
      rfl

lemma cfor_succ {σ : Type} (body : ℕ → σ → σ) (n : ℕ) (s : σ) :
    cfor (n + 1) body s = body n (cfor n body s) := by
  have h := cforAux_succ_right body n 0 s
  simpa [cfor] using h

lemma cfor_zero {σ : Type} (body : ℕ → σ → σ) (s : σ) :
    cfor 0 body s = s := rfl

lemma cfor_inv {σ : Type} {P : σ → Prop} (body : ℕ → σ → σ) (n : ℕ) (s : σ)
    (h0 : P s) (hstep : ∀ i s, i < n → P s → P (body i s)) :
    P (cfor n body s) := by
  induction n with
  | zero => exact h0
  | succ n ih =>
      rw [cfor_succ]
      exact hstep n _ (Nat.lt_succ_self n)
        (ih (fun i s hi hs => hstep i s (Nat.lt_succ_of_lt hi) hs))

lemma cfor_sum (f : ℕ → ℚ) (n : ℕ) (c : ℚ) :
    cfor n (fun i acc => acc + f i) c = c + ∑ i ∈ Finset.range n, f i := by
  induction n with
  | zero => simp [cfor, cforAux]
  | succ n ih => rw [cfor_succ, ih, Finset.sum_range_succ]; ring

lemma cfor_ind {σ : Type} (Q : ℕ → σ → Prop) (body : ℕ → σ → σ) (s : σ)
    (h0 : Q 0 s) (hstep : ∀ c sc, Q c sc → Q (c + 1) (body c sc)) (c : ℕ) :
    Q c (cfor c body s) := by
  induction c with
  | zero => exact h0
  | succ c ih => rw [cfor_succ]; exact hstep c _ ih

lemma cfor_ind_lt {σ : Type} (Q : ℕ → σ → Prop) (body : ℕ → σ → σ) (s : σ)
    (cmax : ℕ) (h0 : Q 0 s)
    (hstep : ∀ c sc, c < cmax → Q c sc → Q (c + 1) (body c sc)) :
    Q cmax (cfor cmax body s) := by
  suffices h : ∀ c, c ≤ cmax → Q c (cfor c body s) from h cmax le_rfl
  intro c
  induction c with
  | zero => intro _; exact h0
  | succ c ih =>
      intro hc
      rw [cfor_succ]
      exact hstep c _ (by omega) (ih (by omega))

/-!
### Claim theorems
-/

/-- C10: the plain inference forward pass `run` writes only the activation
vectors of layers `1 .. L-1`: the layer-0 activations, all weight
matrices, the test cases, the truth table, and the theta/psi staging
buffers hold exactly the values they held before the call, for every
topology and every starting state. -/
theorem c10_run_frame (act : ℚ → ℚ) (st : NetState) :
    (run act st).lengths = st.lengths ∧
    getRow (run act st).a 0 = getRow st.a 0 ∧
    (run act st).weights = st.weights ∧
    (run act st).testCases = st.testCases ∧
    (run act st).truthTable = st.truthTable ∧
    (run act st).theta = st.theta ∧
    (run act st).psi = st.psi := by
  unfold run
  refine cfor_inv (P := fun s : NetState => s.lengths = st.lengths ∧
    getRow s.a 0 = getRow st.a 0 ∧ s.weights = st.weights ∧
    s.testCases = st.testCases ∧ s.truthTable = st.truthTable ∧
    s.theta = st.theta ∧ s.psi = st.psi) _ _ _
    ⟨rfl, rfl, rfl, rfl, rfl, rfl, rfl⟩ ?_
  intro n s _ hs
  refine cfor_inv (P := fun s : NetState => s.lengths = st.lengths ∧
    getRow s.a 0 = getRow st.a 0 ∧ s.weights = st.weights ∧
    s.testCases = st.testCases ∧ s.truthTable = st.truthTable ∧
    s.theta = st.theta ∧ s.psi = st.psi) _ _ _ hs ?_
  intro j s1 _ hs1
  refine ⟨hs1.1, ?_, hs1.2.2⟩
  show getRow (set2 s1.a (n + 1) j _) 0 = getRow st.a 0
  rw [getRow_set2_ne _ _ _ (by omega)]
  exact hs1.2.1

/-- C1: evaluation at the failing input.  On a current topology `[1, 1]`
with weight matrix `[[7]]`, loading a file whose topology header reads
`1, 2` (mismatch at layer 1) returns `-1` (`ConfigMismatch`) — but the
weight-reading loop still runs and overwrites `weights[0][0][0]` with the
file's payload `99`, contradicting the claim that a header mismatch
leaves every existing weight matrix entry unmodified. -/
theorem c1_header_mismatch_still_overwrites :
    (propagateWeightsFromFile stA streamA).1 = -1 ∧
    get3 (propagateWeightsFromFile stA streamA).2.weights 0 0 0 = 99 ∧
    get3 stA.weights 0 0 0 = 7 := by decide

/-- C3 (counterexample): `runWhilstTraining` does not return the
accumulated sum of squared residuals: on the concrete 1-1-1 network `stB`
it returns `1/2` while `Σ omega_i²` of the resulting state is `1`. -/
theorem c3_training_error_counterexample :
    (runWhilstTraining idQ idQ stB 0).2 ≠
      residSumSq (runWhilstTraining idQ idQ stB 0).1 0 := by
  norm_num [runWhilstTraining, hiddenPhase, outputPhase, residSumSq, cfor,
    cforAux, stB, idQ, get2, get3, getV, getRow, getMat, set2, L, len,
    Finset.sum_range_succ]

/-- C4 (counterexample): with `maxIterations = 0` the loop still performs
one full pass over the dataset (the final `iterationsCount` is `1`), so
the number of completed passes exceeds `maxIterations`. -/
theorem c4_iteration_cap_counterexample :
    ¬ (train pZero stB).iterationsCount ≤ pZero.maxIterations := by decide

/-- C8 (counterexample): the stream written by `saveWeights` is not just
the topology ints followed by the row-major doubles — it starts with a
human-readable header line and carries one-byte separators. -/
theorem c8_file_layout_counterexample :
    saveWeights cfgD stD ≠ pureLayout stD := by decide

lemma skipLine_header (cfg : List Char) (rest : List FTok) :
    skipLine (FTok.txt (headerChars cfg) :: rest) = some rest := by
  have h : lineDone (FTok.txt (headerChars cfg)) = true := by
    simp [lineDone, headerChars]
  simp [skipLine, h]

lemma loadHeader_saveHeader (ls : List ℕ) (rest : List FTok) (ret : ℤ) :
    loadHeader ls (saveHeader ls ++ rest) ret = (ret, rest) := by
  induction ls generalizing ret with
  | nil => rfl
  | cons e es ih => simp [saveHeader, loadHeader, readIntTok, skip1, ih]

lemma readDoubles_exact (row : QVec) (rest : List FTok) :
    readDoubles row.length (row.map FTok.dbl ++ rest) = (row, row.length, rest) := by
  induction row with
  | nil => rfl
  | cons q qs ih => simp [readDoubles, ih]

lemma overwriteFront_self (row : QVec) : overwriteFront row row = row := by
  simp [overwriteFront]

lemma loadRows_matTokens (mat : List QVec) (n1 : ℕ) (rest : List FTok)
    (ret : ℤ) (h : ∀ row ∈ mat, row.length = n1) :
    loadRows n1 mat (matTokens mat ++ rest) ret = (mat, rest, ret) := by
  induction mat generalizing rest ret with
  | nil => rfl
  | cons row rows ih =>
      have hrow : row.length = n1 := h row (List.mem_cons_self row rows)
      have hrest : ∀ r ∈ rows, r.length = n1 :=
        fun r hr => h r (List.mem_cons_of_mem row hr)
      have hread := readDoubles_exact row
        (FTok.chB '\n' :: (matTokens rows ++ rest))
      rw [hrow] at hread
      simp only [matTokens, List.map_cons, List.flatten_cons, rowTokens,
        List.append_assoc, List.singleton_append] at hread ⊢
      have ih2 := ih rest ret hrest
      simp only [matTokens] at ih2
      simp [loadRows, hread, skip1, overwriteFront_self, hrow, ih2]

lemma loadMatrices_saveBody (ls : List ℕ) (mats : List QMat)
    (rest : List FTok) (ret : ℤ) (hd : Dims ls mats) :
    loadMatrices ls mats (saveBody ls mats ++ rest) ret = (mats, rest, ret) := by
  induction hd generalizing rest ret with
  | nil => rfl
  | last n => rfl
  | cons hlen hrows _ ih =>
      simp only [saveBody, List.append_assoc, loadMatrices]
      rw [loadRows_matTokens _ _ _ _ hrows, ih]

/-- C7: saving the weights and loading the resulting file back under the
unchanged topology succeeds (return value `0`) and reproduces the weight
state exactly, for every topology, every weight assignment of the
allocated shape, and every newline-free network-configuration string
(the newline-freedom hypothesis marks the regime in which the token-level
model of the header line is byte-faithful). -/
theorem c7_save_load_roundtrip (st : NetState) (cfg : List Char)
    (hd : Dims st.lengths st.weights) (_hcfg : '\n' ∉ cfg) :
    propagateWeightsFromFile st (saveWeights cfg st) = (0, st) := by
  unfold propagateWeightsFromFile saveWeights
  rw [skipLine_header]
  have h1 := loadHeader_saveHeader st.lengths (saveBody st.lengths st.weights) 0
  have h2 := loadMatrices_saveBody st.lengths st.weights [] 0 hd
  rw [List.append_nil] at h2
  simp [h1, h2]

/-- Witness for C7 at the concrete 2-1 network `stD`. -/
theorem c7_save_load_roundtrip_witness :
    ('\n' ∉ cfgD) ∧ Dims stD.lengths stD.weights ∧
    propagateWeightsFromFile stD (saveWeights cfgD stD) = (0, stD) := by
  have h1 : '\n' ∉ cfgD := by decide
  have h2 : Dims stD.lengths stD.weights :=
    Dims.cons rfl (by decide) (Dims.last 1)
  exact ⟨h1, h2, c7_save_load_roundtrip stD cfgD h2 h1⟩

lemma intsOf_append (s t : List FTok) :
    intsOf (s ++ t) = intsOf s ++ intsOf t := by
  simp only [intsOf, List.filterMap_append]

lemma dblsOf_append (s t : List FTok) :
    dblsOf (s ++ t) = dblsOf s ++ dblsOf t := by
  simp only [dblsOf, List.filterMap_append]

lemma intsOf_cons_chB (c : Char) (s : List FTok) :
    intsOf (FTok.chB c :: s) = intsOf s := by
  simp only [intsOf, List.filterMap_cons]

lemma intsOf_cons_txt (t : List Char) (s : List FTok) :
    intsOf (FTok.txt t :: s) = intsOf s := by
  simp only [intsOf, List.filterMap_cons]

lemma intsOf_cons_dbl (q : ℚ) (s : List FTok) :
    intsOf (FTok.dbl q :: s) = intsOf s := by
  simp only [intsOf, List.filterMap_cons]

lemma intsOf_cons_intB (v : ℤ) (s : List FTok) :
    intsOf (FTok.intB v :: s) = v :: intsOf s := by
  simp only [intsOf, List.filterMap_cons]

lemma dblsOf_cons_chB (c : Char) (s : List FTok) :
    dblsOf (FTok.chB c :: s) = dblsOf s := by
  simp only [dblsOf, List.filterMap_cons]

lemma dblsOf_cons_txt (t : List Char) (s : List FTok) :
    dblsOf (FTok.txt t :: s) = dblsOf s := by
  simp only [dblsOf, List.filterMap_cons]

lemma dblsOf_cons_intB (v : ℤ) (s : List FTok) :
    dblsOf (FTok.intB v :: s) = dblsOf s := by
  simp only [dblsOf, List.filterMap_cons]

lemma dblsOf_cons_dbl (q : ℚ) (s : List FTok) :
    dblsOf (FTok.dbl q :: s) = q :: dblsOf s := by
  simp only [dblsOf, List.filterMap_cons]

lemma intsOf_dblMap (row : QVec) : intsOf (row.map FTok.dbl) = [] := by
  induction row with
  | nil => rfl
  | cons q qs ih => rw [List.map_cons, intsOf_cons_dbl, ih]

lemma dblsOf_dblMap (row : QVec) : dblsOf (row.map FTok.dbl) = row := by
  induction row with
  | nil => rfl
  | cons q qs ih => rw [List.map_cons, dblsOf_cons_dbl, ih]

lemma intsOf_saveHeader (ls : List ℕ) :
    intsOf (saveHeader ls) = ls.map Int.ofNat := by
  induction ls with
  | nil => rfl
  | cons e es ih =>
      rw [saveHeader, intsOf_cons_intB, intsOf_cons_chB, ih, List.map_cons]

lemma dblsOf_saveHeader (ls : List ℕ) : dblsOf (saveHeader ls) = [] := by
  induction ls with
  | nil => rfl
  | cons e es ih => rw [saveHeader, dblsOf_cons_intB, dblsOf_cons_chB, ih]

lemma matTokens_cons (row : QVec) (rows : QMat) :
    matTokens (row :: rows) = rowTokens row ++ matTokens rows := by
  simp [matTokens]

lemma intsOf_rowTokens (row : QVec) : intsOf (rowTokens row) = [] := by
  rw [rowTokens, intsOf_append, intsOf_dblMap]
  rfl

lemma dblsOf_rowTokens (row : QVec) : dblsOf (rowTokens row) = row := by
  rw [rowTokens, dblsOf_append, dblsOf_dblMap]
  simp [dblsOf]

lemma intsOf_matTokens (mat : QMat) : intsOf (matTokens mat) = [] := by
  induction mat with
  | nil => rfl
  | cons row rows ih =>
      rw [matTokens_cons, intsOf_append, intsOf_rowTokens, ih]
      rfl

lemma dblsOf_matTokens (mat : QMat) : dblsOf (matTokens mat) = mat.flatten := by
  induction mat with
  | nil => rfl
  | cons row rows ih =>
      rw [matTokens_cons, dblsOf_append, dblsOf_rowTokens, ih, List.flatten_cons]

lemma intsOf_saveBody (ls : List ℕ) (ws : List QMat) (hd : Dims ls ws) :
    intsOf (saveBody ls ws) = [] := by
  induction hd with
  | nil => rfl
  | last n => rfl
  | cons hlen hrows _ ih =>
      rw [saveBody, intsOf_append, intsOf_matTokens, ih]
      rfl

lemma dblsOf_saveBody (ls : List ℕ) (ws : List QMat) (hd : Dims ls ws) :
    dblsOf (saveBody ls ws) = (ws.map List.flatten).flatten := by
  induction hd with
  | nil => rfl
  | last n => rfl
  | cons hlen hrows _ ih =>
      rw [saveBody, dblsOf_append, dblsOf_matTokens, ih]
      simp

lemma saveHeader_eq_layout (ls : List ℕ) :
    saveHeader ls
      = (ls.map (fun e => [FTok.intB (Int.ofNat e), FTok.chB '\n'])).flatten := by
  induction ls with
  | nil => rfl
  | cons e es ih => rw [saveHeader, List.map_cons, List.flatten_cons, ih]; rfl

lemma saveBody_eq_layout (ls : List ℕ) (ws : List QMat) (hd : Dims ls ws) :
    saveBody ls ws
      = (ws.map (fun mat =>
          (mat.map (fun row => row.map FTok.dbl ++ [FTok.chB '\n'])).flatten)).flatten := by
  induction hd with
  | nil => rfl
  | last n => rfl
  | cons hlen hrows _ ih =>
      rw [saveBody, List.map_cons, List.flatten_cons, ih]
      rfl

/-- C8 (amended): the save stream is exactly — in this order — the
human-readable header line, then the topology header (one integer per
layer, in layer order, each integer followed by one `'\n'` byte), then,
for every interval in order, that interval's weight matrix flattened
row-major (outer index the source node `k`, inner index the destination
node `j`), each row's doubles followed by one `'\n'` byte, and nothing
else.  Consequently its integers are exactly the topology and its
doubles exactly the row-major flattened matrices. -/
theorem c8_file_layout_amended (cfg : List Char) (st : NetState)
    (hd : Dims st.lengths st.weights) :
    saveWeights cfg st
      = FTok.txt (headerChars cfg)
        :: ((st.lengths.map (fun e => [FTok.intB (Int.ofNat e), FTok.chB '\n'])).flatten
          ++ (st.weights.map (fun mat =>
              (mat.map (fun row => row.map FTok.dbl ++ [FTok.chB '\n'])).flatten)).flatten) ∧
    intsOf (saveWeights cfg st) = st.lengths.map Int.ofNat ∧
    dblsOf (saveWeights cfg st) = (st.weights.map List.flatten).flatten := by
  refine ⟨?_, ?_, ?_⟩
  · rw [saveWeights, saveHeader_eq_layout, saveBody_eq_layout st.lengths st.weights hd]
  · rw [saveWeights, intsOf_cons_txt, intsOf_append, intsOf_saveHeader,
      intsOf_saveBody st.lengths st.weights hd, List.append_nil]
  · rw [saveWeights, dblsOf_cons_txt, dblsOf_append, dblsOf_saveHeader,
      dblsOf_saveBody st.lengths st.weights hd, List.nil_append]

/-- Witness for the amended C8 at the concrete 2-1 network `stD`. -/
theorem c8_file_layout_amended_witness :
    Dims stD.lengths stD.weights ∧
    (saveWeights cfgD stD
      = FTok.txt (headerChars cfgD)
        :: ((stD.lengths.map (fun e => [FTok.intB (Int.ofNat e), FTok.chB '\n'])).flatten
          ++ (stD.weights.map (fun mat =>
              (mat.map (fun row => row.map FTok.dbl ++ [FTok.chB '\n'])).flatten)).flatten) ∧
     intsOf (saveWeights cfgD stD) = stD.lengths.map Int.ofNat ∧
     dblsOf (saveWeights cfgD stD) = (stD.weights.map List.flatten).flatten) := by
  have h2 : Dims stD.lengths stD.weights :=
    Dims.cons rfl (by decide) (Dims.last 1)
  exact ⟨h2, c8_file_layout_amended cfgD stD h2⟩

lemma filter_single_true {α : Type} (f : α → Bool) (e : α) (hf : f e = true) :
    List.filter f [e] = [e] := by
  simp [List.filter, hf]

lemma filter_single_false {α : Type} (f : α → Bool) (e : α) (hf : f e = false) :
    List.filter f [e] = [] := by
  simp [List.filter, hf]

lemma trainLoopAux_log (p : TrainParams) (fuel : ℕ) :
    ∀ (st : NetState) (count : ℕ) (eAvg eSum : ℚ)
      (log trace : List (ℕ × ℚ)),
    log = trace.filter
      (fun q => decide (p.keepAlive ≠ 0 ∧ 0 < q.1 ∧ p.keepAlive ∣ q.1)) →
    (trainLoopAux p fuel st count eAvg eSum log trace).2.2.2.1
      = (trainLoopAux p fuel st count eAvg eSum log trace).2.2.2.2.filter
          (fun q => decide (p.keepAlive ≠ 0 ∧ 0 < q.1 ∧ p.keepAlive ∣ q.1)) := by
  induction fuel with
  | zero => intro st count eAvg eSum log trace h; exact h
  | succ fuel ih =>
      intro st count eAvg eSum log trace h
      rw [trainLoopAux]
      by_cases hg : count ≤ p.maxIterations ∧ (count = 0 ∨ eAvg > p.maxAcceptableError)
      · rw [if_pos hg]
        apply ih
        by_cases hc : p.keepAlive ≠ 0 ∧ (count + 1) % p.keepAlive = 0
        · have hp : (fun q : ℕ × ℚ =>
              decide (p.keepAlive ≠ 0 ∧ 0 < q.1 ∧ p.keepAlive ∣ q.1))
              (count + 1, (trainPass p st eSum).2 / (p.numTestCases : ℚ)) = true := by
            simp only [decide_eq_true_eq]
            exact ⟨hc.1, Nat.succ_pos count, Nat.dvd_iff_mod_eq_zero.2 hc.2⟩
          rw [if_pos hc, List.filter_append, ← h,
            filter_single_true
              (fun q : ℕ × ℚ => decide (p.keepAlive ≠ 0 ∧ 0 < q.1 ∧ p.keepAlive ∣ q.1))
              (count + 1, (trainPass p st eSum).2 / (p.numTestCases : ℚ)) hp]
        · have hp : (fun q : ℕ × ℚ =>
              decide (p.keepAlive ≠ 0 ∧ 0 < q.1 ∧ p.keepAlive ∣ q.1))
              (count + 1, (trainPass p st eSum).2 / (p.numTestCases : ℚ)) = false := by
            simp only [decide_eq_false_iff_not]
            intro hcon
            exact hc ⟨hcon.1, Nat.dvd_iff_mod_eq_zero.1 hcon.2.2⟩
          rw [if_neg hc, List.filter_append, ← h,
            filter_single_false
              (fun q : ℕ × ℚ => decide (p.keepAlive ≠ 0 ∧ 0 < q.1 ∧ p.keepAlive ∣ q.1))
              (count + 1, (trainPass p st eSum).2 / (p.numTestCases : ℚ)) hp,
            List.append_nil]
      · rw [if_neg hg]
        exact h

/-- C9: during training, the progress output fires exactly on the
iterations whose counter is a positive multiple of `keepAlive`, reporting
that iteration's counter and its `EAverage` (the recorded rows are the
full iteration trace filtered to positive multiples of `keepAlive`), and
`keepAlive = 0` makes the filter empty, disabling the output entirely. -/
theorem c9_keepalive_log (p : TrainParams) (st : NetState) :
    (train p st).log = (train p st).trace.filter
      (fun q => decide (p.keepAlive ≠ 0 ∧ 0 < q.1 ∧ p.keepAlive ∣ q.1)) := by
  have h := trainLoopAux_log p (p.maxIterations + 1) st 0 0 0 [] [] rfl
  simpa [train] using h

lemma trainLoopAux_exit (p : TrainParams) (fuel : ℕ) :
    ∀ (st : NetState) (count : ℕ) (eAvg eSum : ℚ)
      (log trace : List (ℕ × ℚ)),
    count + fuel = p.maxIterations + 1 →
    (trainLoopAux p fuel st count eAvg eSum log trace).2.1 ≤ p.maxIterations + 1 ∧
    1 ≤ (trainLoopAux p fuel st count eAvg eSum log trace).2.1 ∧
    ((trainLoopAux p fuel st count eAvg eSum log trace).2.2.1 ≤ p.maxAcceptableError ∨
      (trainLoopAux p fuel st count eAvg eSum log trace).2.1 = p.maxIterations + 1) := by
  induction fuel with
  | zero =>
      intro st count eAvg eSum log trace h
      refine ⟨?_, ?_, Or.inr ?_⟩ <;> simp [trainLoopAux] <;> omega
  | succ fuel ih =>
      intro st count eAvg eSum log trace h
      rw [trainLoopAux]
      by_cases hg : count ≤ p.maxIterations ∧ (count = 0 ∨ eAvg > p.maxAcceptableError)
      · rw [if_pos hg]
        exact ih _ (count + 1) _ _ _ _ (by omega)
      · rw [if_neg hg]
        push_neg at hg
        by_cases hc : count ≤ p.maxIterations
        · have h2 := hg hc
          have hcount : count ≠ 0 := h2.1
          refine ⟨?_, ?_, Or.inl ?_⟩ <;> simp
          · omega
          · omega
          · exact h2.2
        · refine ⟨?_, ?_, Or.inr ?_⟩ <;> simp <;> omega

/-- C4 (amended): `train` terminates for every threshold and every
`maxIterations`, always runs at least one full pass, completes at most
`maxIterations + 1` passes (not `maxIterations`: the loop guard is
`iterationsCount <= maxIterations` with the increment at the top of the
body, so it exits only once the counter exceeds the cap), stops early
only when `averageError ≤ errorThreshold`, and the return value
classifies success exactly as `averageError ≤ errorThreshold`. -/
theorem c4_termination_amended (p : TrainParams) (st : NetState) :
    (train p st).iterationsCount ≤ p.maxIterations + 1 ∧
    1 ≤ (train p st).iterationsCount ∧
    ((train p st).eAverage ≤ p.maxAcceptableError ∨
      (train p st).iterationsCount = p.maxIterations + 1) ∧
    ((train p st).returnValue = 0 ↔
      (train p st).eAverage ≤ p.maxAcceptableError) := by
  have h := trainLoopAux_exit p (p.maxIterations + 1) st 0 0 0 [] [] (by omega)
  refine ⟨by simpa [train] using h.1, by simpa [train] using h.2.1,
    by simpa [train] using h.2.2, ?_⟩
  by_cases hq : (trainLoopAux p (p.maxIterations + 1) st 0 0 0 [] []).2.2.1
      > p.maxAcceptableError
  · have h1 : (train p st).returnValue = 1 := by simp [train, hq]
    have h2 : (train p st).eAverage =
        (trainLoopAux p (p.maxIterations + 1) st 0 0 0 [] []).2.2.1 := by
      simp [train]
    rw [h1, h2]
    constructor
    · intro hcon; exact absurd hcon (by decide)
    · intro hcon; exact absurd hcon (not_le.mpr hq)
  · have h1 : (train p st).returnValue = 0 := by simp [train, hq]
    have h2 : (train p st).eAverage =
        (trainLoopAux p (p.maxIterations + 1) st 0 0 0 [] []).2.2.1 := by
      simp [train]
    rw [h1, h2]
    exact iff_of_true rfl (not_lt.mp hq)

lemma updateInput_frames (st : NetState) (it : ℕ) :
    (updateInputActivations st it).lengths = st.lengths ∧
    (updateInputActivations st it).weights = st.weights ∧
    (updateInputActivations st it).testCases = st.testCases ∧
    (updateInputActivations st it).truthTable = st.truthTable ∧
    (updateInputActivations st it).theta = st.theta ∧
    (updateInputActivations st it).psi = st.psi := by
  unfold updateInputActivations
  exact cfor_inv (P := fun s : NetState => s.lengths = st.lengths ∧
    s.weights = st.weights ∧ s.testCases = st.testCases ∧
    s.truthTable = st.truthTable ∧ s.theta = st.theta ∧ s.psi = st.psi)
    _ _ _ ⟨rfl, rfl, rfl, rfl, rfl, rfl⟩ (fun _ s _ hs => hs)

lemma hiddenPhase_frames (act : ℚ → ℚ) (st : NetState) :
    (hiddenPhase act st).lengths = st.lengths ∧
    (hiddenPhase act st).weights = st.weights ∧
    (hiddenPhase act st).testCases = st.testCases ∧
    (hiddenPhase act st).truthTable = st.truthTable ∧
    (hiddenPhase act st).psi = st.psi := by
  unfold hiddenPhase
  refine cfor_inv (P := fun s : NetState => s.lengths = st.lengths ∧
    s.weights = st.weights ∧ s.testCases = st.testCases ∧
    s.truthTable = st.truthTable ∧ s.psi = st.psi)
    _ _ _ ⟨rfl, rfl, rfl, rfl, rfl⟩ ?_
  intro n s _ hs
  exact cfor_inv (P := fun s : NetState => s.lengths = st.lengths ∧
    s.weights = st.weights ∧ s.testCases = st.testCases ∧
    s.truthTable = st.truthTable ∧ s.psi = st.psi)
    _ _ _ hs (fun _ s _ hs => hs)

lemma outputPhase_frames (act actP : ℚ → ℚ) (st : NetState) (it : ℕ) :
    (outputPhase act actP st it).1.lengths = st.lengths ∧
    (outputPhase act actP st it).1.weights = st.weights ∧
    (outputPhase act actP st it).1.testCases = st.testCases ∧
    (outputPhase act actP st it).1.truthTable = st.truthTable ∧
    (outputPhase act actP st it).1.theta = st.theta := by
  unfold outputPhase
  exact cfor_inv (P := fun p : NetState × ℚ => p.1.lengths = st.lengths ∧
    p.1.weights = st.weights ∧ p.1.testCases = st.testCases ∧
    p.1.truthTable = st.truthTable ∧ p.1.theta = st.theta)
    _ _ _ ⟨rfl, rfl, rfl, rfl, rfl⟩ (fun _ p _ hp => hp)

lemma backLayerStep_frames (lam : ℚ) (actP : ℚ → ℚ) (n : ℕ) (st : NetState) :
    (backLayerStep lam actP n st).lengths = st.lengths ∧
    (backLayerStep lam actP n st).a = st.a ∧
    (backLayerStep lam actP n st).testCases = st.testCases ∧
    (backLayerStep lam actP n st).truthTable = st.truthTable ∧
    (backLayerStep lam actP n st).theta = st.theta := by
  unfold backLayerStep
  exact cfor_inv (P := fun s : NetState => s.lengths = st.lengths ∧
    s.a = st.a ∧ s.testCases = st.testCases ∧
    s.truthTable = st.truthTable ∧ s.theta = st.theta)
    _ _ _ ⟨rfl, rfl, rfl, rfl, rfl⟩ (fun _ s _ hs => hs)

lemma backGeneralPhase_frames (lam : ℚ) (actP : ℚ → ℚ) (st : NetState) :
    (backGeneralPhase lam actP st).lengths = st.lengths ∧
    (backGeneralPhase lam actP st).a = st.a ∧
    (backGeneralPhase lam actP st).testCases = st.testCases ∧
    (backGeneralPhase lam actP st).truthTable = st.truthTable ∧
    (backGeneralPhase lam actP st).theta = st.theta := by
  unfold backGeneralPhase
  refine cfor_inv (P := fun s : NetState => s.lengths = st.lengths ∧
    s.a = st.a ∧ s.testCases = st.testCases ∧
    s.truthTable = st.truthTable ∧ s.theta = st.theta)
    _ _ _ ⟨rfl, rfl, rfl, rfl, rfl⟩ ?_
  intro i s _ hs
  have h := backLayerStep_frames lam actP (L st - 2 - i) s
  exact ⟨h.1.trans hs.1, h.2.1.trans hs.2.1, h.2.2.1.trans hs.2.2.1,
    h.2.2.2.1.trans hs.2.2.2.1, h.2.2.2.2.trans hs.2.2.2.2⟩

lemma backBoundary_frames (lam : ℚ) (actP : ℚ → ℚ) (st : NetState) :
    (backBoundary lam actP st).lengths = st.lengths ∧
    (backBoundary lam actP st).a = st.a ∧
    (backBoundary lam actP st).testCases = st.testCases ∧
    (backBoundary lam actP st).truthTable = st.truthTable ∧
    (backBoundary lam actP st).theta = st.theta ∧
    (backBoundary lam actP st).psi = st.psi := by
  unfold backBoundary
  refine cfor_inv (P := fun s : NetState => s.lengths = st.lengths ∧
    s.a = st.a ∧ s.testCases = st.testCases ∧
    s.truthTable = st.truthTable ∧ s.theta = st.theta ∧ s.psi = st.psi)
    _ _ _ ⟨rfl, rfl, rfl, rfl, rfl, rfl⟩ ?_
  intro k s _ hs
  exact cfor_inv (P := fun s : NetState => s.lengths = st.lengths ∧
    s.a = st.a ∧ s.testCases = st.testCases ∧
    s.truthTable = st.truthTable ∧ s.theta = st.theta ∧ s.psi = st.psi)
    _ _ _ hs (fun _ s _ hs => hs)

lemma outputPhase_snd (act actP : ℚ → ℚ) (st : NetState) (it : ℕ)
    (h2 : 2 ≤ L st) :
    (outputPhase act actP st it).2 = outSumSq act st it := by
  have hne : L st - 1 ≠ L st - 2 := by omega
  unfold outputPhase outSumSq
  refine (cfor_ind (Q := fun c (p : NetState × ℚ) =>
      p.1.truthTable = st.truthTable ∧ p.1.weights = st.weights ∧
      getRow p.1.a (L st - 2) = getRow st.a (L st - 2) ∧
      p.2 = ∑ j ∈ Finset.range c,
        (get2 st.truthTable it j - act (∑ k ∈ Finset.range (len st (L st - 2)),
          get2 st.a (L st - 2) k * get3 st.weights (L st - 2) k j)) ^ 2)
    _ (st, 0) ⟨rfl, rfl, rfl, by simp⟩ ?_ (len st (L st - 1))).2.2.2
  · intro c p hp
    have hth : cfor (len st (L st - 2))
        (fun k acc => acc + get2 p.1.a (L st - 2) k * get3 p.1.weights (L st - 2) k c) 0
        = ∑ k ∈ Finset.range (len st (L st - 2)),
            get2 st.a (L st - 2) k * get3 st.weights (L st - 2) k c := by
      rw [cfor_sum, zero_add]
      refine Finset.sum_congr rfl (fun k _ => ?_)
      have ha : get2 p.1.a (L st - 2) k = get2 st.a (L st - 2) k := by
        show getV (getRow p.1.a (L st - 2)) k = getV (getRow st.a (L st - 2)) k
        rw [hp.2.2.1]
      rw [ha, hp.2.1]
    refine ⟨hp.1, hp.2.1, ?_, ?_⟩
    · show getRow (set2 p.1.a (L st - 1) c _) (L st - 2) = getRow st.a (L st - 2)
      rw [getRow_set2_ne _ _ _ hne]
      exact hp.2.2.1
    · show p.2 + (get2 p.1.truthTable it c - act (cfor (len st (L st - 2))
          (fun k acc => acc + get2 p.1.a (L st - 2) k * get3 p.1.weights (L st - 2) k c) 0))
          * (get2 p.1.truthTable it c - act (cfor (len st (L st - 2))
          (fun k acc => acc + get2 p.1.a (L st - 2) k * get3 p.1.weights (L st - 2) k c) 0))
          = _
      rw [Finset.sum_range_succ, ← hp.2.2.2, hth, hp.1, pow_two]

lemma runWhilstTraining_snd (act actP : ℚ → ℚ) (st : NetState) (it : ℕ)
    (h2 : 2 ≤ L st) :
    (runWhilstTraining act actP st it).2
      = outSumSq act (hiddenPhase act st) it / 2 := by
  have hL : L (hiddenPhase act st) = L st := by
    show (hiddenPhase act st).lengths.length = st.lengths.length
    rw [(hiddenPhase_frames act st).1]
  show (outputPhase act actP (hiddenPhase act st) it).2 / 2 = _
  rw [outputPhase_snd act actP (hiddenPhase act st) it (by rw [hL]; exact h2)]

/-- C3 (amended): for every example, the training forward pass
`runWhilstTraining` returns the accumulated sum of squared residuals
divided by two, `Σ omega_i² / 2` (the halving happens inside the function,
at `return ESum / 2.0`; it is not yet divided by the number of test
cases). -/
theorem c3_training_error_halved (act actP : ℚ → ℚ) (st : NetState) (it : ℕ)
    (h2 : 2 ≤ L st) :
    (runWhilstTraining act actP st it).2
      = outSumSq act (hiddenPhase act st) it / 2 :=
  runWhilstTraining_snd act actP st it h2

/-- Witness for the amended C3 at the concrete 1-1-1 network `stB`. -/
theorem c3_training_error_halved_witness :
    2 ≤ L stB ∧ (runWhilstTraining idQ idQ stB 0).2
      = outSumSq idQ (hiddenPhase idQ stB) 0 / 2 :=
  ⟨by decide, c3_training_error_halved idQ idQ stB 0 (by decide)⟩

lemma trainExample_frames (p : TrainParams) (st : NetState) (it : ℕ) :
    (trainExample p st it).1.lengths = st.lengths ∧
    (trainExample p st it).1.testCases = st.testCases ∧
    (trainExample p st it).1.truthTable = st.truthTable := by
  unfold trainExample runWhilstTraining
  have h1 := updateInput_frames st it
  have h2 := hiddenPhase_frames p.act (updateInputActivations st it)
  have h3 := outputPhase_frames p.act p.actP
    (hiddenPhase p.act (updateInputActivations st it)) it
  have h4 := backGeneralPhase_frames p.lam p.actP
    (outputPhase p.act p.actP (hiddenPhase p.act (updateInputActivations st it)) it).1
  have h5 := backBoundary_frames p.lam p.actP
    (backGeneralPhase p.lam p.actP
      (outputPhase p.act p.actP (hiddenPhase p.act (updateInputActivations st it)) it).1)
  refine ⟨?_, ?_, ?_⟩
  · exact (h5.1.trans h4.1).trans ((h3.1.trans h2.1).trans h1.1)
  · exact (h5.2.2.1.trans h4.2.2.1).trans ((h3.2.2.1.trans h2.2.2.1).trans h1.2.2.1)
  · exact (h5.2.2.2.1.trans h4.2.2.2.1).trans
      ((h3.2.2.2.1.trans h2.2.2.2.1).trans h1.2.2.2.1)

lemma trainPassAux_snd (p : TrainParams) :
    ∀ (r it : ℕ) (st : NetState) (eSum : ℚ), 2 ≤ L st →
    (trainPassAux p r it st eSum).2 = eSum + (specErrors p r it st).sum := by
  intro r
  induction r with
  | zero => intro it st eSum h2; simp [trainPassAux, specErrors]
  | succ r ih =>
      intro it st eSum h2
      have hq2 : (trainExample p st it).2 = outSumSq p.act
          (hiddenPhase p.act (updateInputActivations st it)) it / 2 := by
        show (runWhilstTraining p.act p.actP (updateInputActivations st it) it).2 = _
        apply runWhilstTraining_snd
        show 2 ≤ (updateInputActivations st it).lengths.length
        rw [(updateInput_frames st it).1]
        exact h2
      have hL2 : 2 ≤ L (trainExample p st it).1 := by
        show 2 ≤ (trainExample p st it).1.lengths.length
        rw [(trainExample_frames p st it).1]
        exact h2
      show (trainPassAux p r (it + 1) (trainExample p st it).1
        (eSum + (trainExample p st it).2)).2 = eSum + (specErrors p (r + 1) it st).sum
      rw [ih (it + 1) _ _ hL2, hq2, specErrors, List.sum_cons]
      ring

/-- C5: at the end of every training iteration the loop computes
`EAverage = ESum / numTestCases`, where the accumulator `ESum` starts the
iteration at `0` (it is reset after each average) and receives, for each
example in order, that example's `Σ omega²/2` contribution — halved once
inside `runWhilstTraining`, averaged here, never re-halved; the loop then
recurses with the accumulator reset to `0`. -/
theorem c5_average_error (p : TrainParams) (st : NetState) (fuel count : ℕ)
    (eAvg : ℚ) (log trace : List (ℕ × ℚ)) (h2 : 2 ≤ L st)
    (hcount : count ≤ p.maxIterations)
    (hguard : count = 0 ∨ eAvg > p.maxAcceptableError) :
    (trainPass p st 0).2 = (specErrors p p.numTestCases 0 st).sum ∧
    trainLoopAux p (fuel + 1) st count eAvg 0 log trace
      = trainLoopAux p fuel (trainPass p st 0).1 (count + 1)
          ((specErrors p p.numTestCases 0 st).sum / (p.numTestCases : ℚ)) 0
          (if p.keepAlive ≠ 0 ∧ (count + 1) % p.keepAlive = 0
            then log ++ [(count + 1,
              (specErrors p p.numTestCases 0 st).sum / (p.numTestCases : ℚ))]
            else log)
          (trace ++ [(count + 1,
            (specErrors p p.numTestCases 0 st).sum / (p.numTestCases : ℚ))]) := by
  have h1 : (trainPass p st 0).2 = (specErrors p p.numTestCases 0 st).sum := by
    have h := trainPassAux_snd p p.numTestCases 0 st 0 h2
    rw [zero_add] at h
    exact h
  refine ⟨h1, ?_⟩
  rw [trainLoopAux, if_pos (And.intro hcount hguard)]
  show trainLoopAux p fuel (trainPass p st 0).1 (count + 1)
      ((trainPass p st 0).2 / (p.numTestCases : ℚ)) 0
      (if p.keepAlive ≠ 0 ∧ (count + 1) % p.keepAlive = 0
        then log ++ [(count + 1, (trainPass p st 0).2 / (p.numTestCases : ℚ))]
        else log)
      (trace ++ [(count + 1, (trainPass p st 0).2 / (p.numTestCases : ℚ))]) = _
  rw [h1]

/-- Witness for C5 at the concrete 1-1-1 network `stB` with parameters
`pOne`, entering the loop at iteration counter `0`. -/
theorem c5_average_error_witness :
    (2 ≤ L stB ∧ 0 ≤ pOne.maxIterations ∧ ((0 : ℕ) = 0 ∨ (0 : ℚ) > pOne.maxAcceptableError)) ∧
    ((trainPass pOne stB 0).2 = (specErrors pOne pOne.numTestCases 0 stB).sum ∧
    trainLoopAux pOne (0 + 1) stB 0 0 0 [] []
      = trainLoopAux pOne 0 (trainPass pOne stB 0).1 (0 + 1)
          ((specErrors pOne pOne.numTestCases 0 stB).sum / (pOne.numTestCases : ℚ)) 0
          (if pOne.keepAlive ≠ 0 ∧ (0 + 1) % pOne.keepAlive = 0
            then [] ++ [(0 + 1,
              (specErrors pOne pOne.numTestCases 0 stB).sum / (pOne.numTestCases : ℚ))]
            else [])
          ([] ++ [(0 + 1,
            (specErrors pOne pOne.numTestCases 0 stB).sum / (pOne.numTestCases : ℚ))])) :=
  ⟨⟨by decide, by decide, Or.inl rfl⟩,
    c5_average_error pOne stB 0 0 0 [] [] (by decide) (by decide) (Or.inl rfl)⟩

/-- The inner `j` loop of the backward pass computes: `Ω` is the dot
product of `Ψnext` with the row's pre-update values (each element is read
before it is written), and each row element `j < lenNext` receives
exactly one increment `λ * aK * Ψnext[j]`. -/
lemma backInner_char (lam aK : ℚ) (psiNext : QVec) (lenNext : ℕ) (row : QVec) :
    (backInner lam aK psiNext lenNext row).1
      = ∑ j ∈ Finset.range lenNext, getV psiNext j * getV row j ∧
    (backInner lam aK psiNext lenNext row).2.length = row.length ∧
    ∀ j : ℕ, getV (backInner lam aK psiNext lenNext row).2 j
      = if j < lenNext ∧ j < row.length
        then getV row j + lam * aK * getV psiNext j
        else getV row j := by
  unfold backInner
  refine cfor_ind (Q := fun c (p : ℚ × QVec) =>
      p.1 = ∑ j ∈ Finset.range c, getV psiNext j * getV row j ∧
      p.2.length = row.length ∧
      ∀ j : ℕ, getV p.2 j = if j < c ∧ j < row.length
        then getV row j + lam * aK * getV psiNext j else getV row j)
    _ (0, row) ⟨by simp, rfl, fun j => by simp⟩ ?_ lenNext
  intro c p hp
  have hc : getV p.2 c = getV row c := by
    rw [hp.2.2 c]
    simp
  refine ⟨?_, ?_, ?_⟩
  · show p.1 + getV psiNext c * getV p.2 c = _
    rw [Finset.sum_range_succ, hp.1, hc]
  · show (p.2.set c _).length = row.length
    rw [List.length_set, hp.2.1]
  · intro j
    show getV (p.2.set c (getV p.2 c + lam * aK * getV psiNext c)) j = _
    by_cases hj : j = c
    · subst hj
      by_cases hjr : j < row.length
      · rw [getV_set_self _ (by rw [hp.2.1]; exact hjr), hc,
          if_pos (And.intro (Nat.lt_succ_self j) hjr)]
      · rw [List.set_eq_of_length_le (by rw [hp.2.1]; omega), hp.2.2 j]
        have h1 : ¬ (j < j ∧ j < row.length) := by omega
        have h2 : ¬ (j < j + 1 ∧ j < row.length) := by omega
        rw [if_neg h1, if_neg h2]
    · rw [getV_set_ne _ _ (fun h => hj h.symm), hp.2.2 j]
      have hiff : (j < c ∧ j < row.length) ↔ (j < c + 1 ∧ j < row.length) := by
        constructor <;> intro hx <;> exact ⟨by omega, hx.2⟩
      simp only [hiff]

/-- One general backward step at layer `n` (the `k` loop of src lines
879-889): matrices other than `n` and psi rows other than `n` are
untouched; row `k` of matrix `n` gets the one-increment update with the
pre-update row read for `Ω`, and `psi[n][k]` becomes
`Ω * f'(theta[n][k])` with `Ω` the dot product of `psi[n+1]` and the
pre-update row. -/
lemma backLayerStep_char (lam : ℚ) (actP : ℚ → ℚ) (n : ℕ) (st : NetState)
    (hWn : n < st.weights.length) (hW : len st n ≤ (getMat st.weights n).length)
    (hPn : n < st.psi.length) (hP : len st n ≤ (getRow st.psi n).length) :
    (backLayerStep lam actP n st).weights.length = st.weights.length ∧
    (backLayerStep lam actP n st).psi.length = st.psi.length ∧
    (∀ m, m ≠ n → getMat (backLayerStep lam actP n st).weights m = getMat st.weights m) ∧
    (∀ m, m ≠ n → getRow (backLayerStep lam actP n st).psi m = getRow st.psi m) ∧
    (getMat (backLayerStep lam actP n st).weights n).length
      = (getMat st.weights n).length ∧
    (getRow (backLayerStep lam actP n st).psi n).length
      = (getRow st.psi n).length ∧
    (∀ k, len st n ≤ k →
      getRow (getMat (backLayerStep lam actP n st).weights n) k
        = getRow (getMat st.weights n) k) ∧
    (∀ k, len st n ≤ k →
      getV (getRow (backLayerStep lam actP n st).psi n) k
        = getV (getRow st.psi n) k) ∧
    (∀ k, k < len st n →
      (getRow (getMat (backLayerStep lam actP n st).weights n) k).length
        = (getRow (getMat st.weights n) k).length ∧
      getV (getRow (backLayerStep lam actP n st).psi n) k
        = (∑ j ∈ Finset.range (len st (n + 1)),
            getV (getRow st.psi (n + 1)) j * getV (getRow (getMat st.weights n) k) j)
          * actP (get2 st.theta n k) ∧
      ∀ j : ℕ, getV (getRow (getMat (backLayerStep lam actP n st).weights n) k) j
        = if j < len st (n + 1) ∧ j < (getRow (getMat st.weights n) k).length
          then getV (getRow (getMat st.weights n) k) j
            + lam * get2 st.a n k * getV (getRow st.psi (n + 1)) j
          else getV (getRow (getMat st.weights n) k) j) := by
  unfold backLayerStep
  refine (cfor_ind_lt (Q := fun c (s : NetState) =>
      s.a = st.a ∧ s.theta = st.theta ∧
      (s.weights.length = st.weights.length ∧
       s.psi.length = st.psi.length ∧
       (∀ m, m ≠ n → getMat s.weights m = getMat st.weights m) ∧
       (∀ m, m ≠ n → getRow s.psi m = getRow st.psi m) ∧
       (getMat s.weights n).length = (getMat st.weights n).length ∧
       (getRow s.psi n).length = (getRow st.psi n).length ∧
       (∀ k, c ≤ k → getRow (getMat s.weights n) k = getRow (getMat st.weights n) k) ∧
       (∀ k, c ≤ k → getV (getRow s.psi n) k = getV (getRow st.psi n) k) ∧
       (∀ k, k < c →
         (getRow (getMat s.weights n) k).length
           = (getRow (getMat st.weights n) k).length ∧
         getV (getRow s.psi n) k
           = (∑ j ∈ Finset.range (len st (n + 1)),
               getV (getRow st.psi (n + 1)) j * getV (getRow (getMat st.weights n) k) j)
             * actP (get2 st.theta n k) ∧
         ∀ j : ℕ, getV (getRow (getMat s.weights n) k) j
           = if j < len st (n + 1) ∧ j < (getRow (getMat st.weights n) k).length
             then getV (getRow (getMat st.weights n) k) j
               + lam * get2 st.a n k * getV (getRow st.psi (n + 1)) j
             else getV (getRow (getMat st.weights n) k) j)))
    _ st (len st n)
    ⟨rfl, rfl, rfl, rfl, fun _ _ => rfl, fun _ _ => rfl, rfl, rfl,
      fun _ _ => rfl, fun _ _ => rfl, fun k hk => absurd hk (Nat.not_lt_zero k)⟩
    ?_).2.2
  intro c s hc hp
  obtain ⟨ha, hth, hwl, hpl, hwm, hpm, hmatl, hrowl, hwk, hpk, hdone⟩ := hp
  have hWn2 : n < s.weights.length := by rw [hwl]; exact hWn
  have hPn2 : n < s.psi.length := by rw [hpl]; exact hPn
  have hrowc : getRow (getMat s.weights n) c = getRow (getMat st.weights n) c :=
    hwk c le_rfl
  have hpsiN : getRow s.psi (n + 1) = getRow st.psi (n + 1) :=
    hpm (n + 1) (by omega)
  have hac : get2 s.a n c = get2 st.a n c := by rw [ha]
  have hthc : get2 s.theta n c = get2 st.theta n c := by rw [hth]
  have hr : backInner lam (get2 s.a n c) (getRow s.psi (n + 1)) (len st (n + 1))
        (getRow (getMat s.weights n) c)
      = backInner lam (get2 st.a n c) (getRow st.psi (n + 1)) (len st (n + 1))
        (getRow (getMat st.weights n) c) := by
    rw [hac, hpsiN, hrowc]
  obtain ⟨hr1, hr2len, hr2⟩ := backInner_char lam (get2 st.a n c)
    (getRow st.psi (n + 1)) (len st (n + 1)) (getRow (getMat st.weights n) c)
  have hmset : ∀ r : QVec, getMat (setMatRow s.weights n c r) n
      = (getMat s.weights n).set c r := by
    intro r
    exact getMat_set_self _ hWn2
  have hpset : ∀ v : ℚ, getRow (set2 s.psi n c v) n = (getRow s.psi n).set c v := by
    intro v
    exact getRow_set_self _ hPn2
  have hcW : c < (getMat s.weights n).length := by
    rw [hmatl]; omega
  have hcP : c < (getRow s.psi n).length := by
    rw [hrowl]; omega
  refine ⟨ha, hth, ?_, ?_, ?_, ?_, ?_, ?_, ?_, ?_, ?_⟩
  · show (setMatRow s.weights n c _).length = st.weights.length
    rw [setMatRow, List.length_set, hwl]
  · show (set2 s.psi n c _).length = st.psi.length
    rw [set2, List.length_set, hpl]
  · intro m hm
    show getMat (setMatRow s.weights n c _) m = getMat st.weights m
    rw [setMatRow, getMat_set_ne _ _ (fun h => hm h.symm)]
    exact hwm m hm
  · intro m hm
    show getRow (set2 s.psi n c _) m = getRow st.psi m
    rw [set2, getRow_set_ne _ _ (fun h => hm h.symm)]
    exact hpm m hm
  · show (getMat (setMatRow s.weights n c _) n).length = (getMat st.weights n).length
    rw [hmset, List.length_set, hmatl]
  · show (getRow (set2 s.psi n c _) n).length = (getRow st.psi n).length
    rw [hpset, List.length_set, hrowl]
  · intro k hk
    show getRow (getMat (setMatRow s.weights n c _) n) k = getRow (getMat st.weights n) k
    rw [hmset, getRow_set_ne _ _ (by omega)]
    exact hwk k (by omega)
  · intro k hk
    show getV (getRow (set2 s.psi n c _) n) k = getV (getRow st.psi n) k
    rw [hpset, getV_set_ne _ _ (by omega)]
    exact hpk k (by omega)
  · intro k hk
    by_cases hkc : k = c
    · subst hkc
      have hrowEq : getRow (getMat (setMatRow s.weights n k
          (backInner lam (get2 s.a n k) (getRow s.psi (n + 1)) (len st (n + 1))
            (getRow (getMat s.weights n) k)).2) n) k
          = (backInner lam (get2 st.a n k) (getRow st.psi (n + 1)) (len st (n + 1))
            (getRow (getMat st.weights n) k)).2 := by
        rw [hmset, getRow_set_self _ hcW, hr]
      refine ⟨?_, ?_, ?_⟩
      · show (getRow (getMat (setMatRow s.weights n k _) n) k).length = _
        rw [hrowEq, hr2len]
      · show getV (getRow (set2 s.psi n k
            ((backInner lam (get2 s.a n k) (getRow s.psi (n + 1)) (len st (n + 1))
              (getRow (getMat s.weights n) k)).1 * actP (get2 s.theta n k))) n) k = _
        rw [hpset, getV_set_self _ hcP, hr, hr1, hthc]
      · intro j
        show getV (getRow (getMat (setMatRow s.weights n k _) n) k) j = _
        rw [hrowEq, hr2 j]
    · have hk2 : k < c := by omega
      have hrw : getRow (getMat (setMatRow s.weights n c
          (backInner lam (get2 s.a n c) (getRow s.psi (n + 1)) (len st (n + 1))
            (getRow (getMat s.weights n) c)).2) n) k
          = getRow (getMat s.weights n) k := by
        rw [hmset, getRow_set_ne _ _ (fun h => hkc h.symm)]
      have hpv : getV (getRow (set2 s.psi n c
          ((backInner lam (get2 s.a n c) (getRow s.psi (n + 1)) (len st (n + 1))
            (getRow (getMat s.weights n) c)).1 * actP (get2 s.theta n c))) n) k
          = getV (getRow s.psi n) k := by
        rw [hpset, getV_set_ne _ _ (fun h => hkc h.symm)]
      obtain ⟨hd1, hd2, hd3⟩ := hdone k hk2
      refine ⟨?_, ?_, ?_⟩
      · show (getRow (getMat (setMatRow s.weights n c _) n) k).length = _
        rw [hrw]
        exact hd1
      · show getV (getRow (set2 s.psi n c _) n) k = _
        rw [hpv]
        exact hd2
      · intro j
        show getV (getRow (getMat (setMatRow s.weights n c _) n) k) j = _
        rw [hrw]
        exact hd3 j

/-- The `m` loop of the boundary step (src lines 905-909): each
input-layer weight `weights[0][m][kcol]` for `m < bound` receives exactly
one increment `λ * a[0][m] * Ψk`; everything else is untouched. -/
lemma colLoop_char (lam psik : ℚ) (kcol bound : ℕ) (s0 : NetState)
    (h0 : 0 < s0.weights.length)
    (hB : bound ≤ (getMat s0.weights 0).length)
    (hrow : ∀ m, m < bound → kcol < (getRow (getMat s0.weights 0) m).length) :
    (cfor bound (fun m s =>
      let wN := set3 s.weights 0 m kcol
        (get3 s.weights 0 m kcol + lam * get2 s.a 0 m * psik)
      { s with weights := wN }) s0).a = s0.a ∧
    (cfor bound (fun m s =>
      let wN := set3 s.weights 0 m kcol
        (get3 s.weights 0 m kcol + lam * get2 s.a 0 m * psik)
      { s with weights := wN }) s0).theta = s0.theta ∧
    (cfor bound (fun m s =>
      let wN := set3 s.weights 0 m kcol
        (get3 s.weights 0 m kcol + lam * get2 s.a 0 m * psik)
      { s with weights := wN }) s0).psi = s0.psi ∧
    (cfor bound (fun m s =>
      let wN := set3 s.weights 0 m kcol
        (get3 s.weights 0 m kcol + lam * get2 s.a 0 m * psik)
      { s with weights := wN }) s0).weights.length = s0.weights.length ∧
    (∀ mm, mm ≠ 0 → getMat (cfor bound (fun m s =>
      let wN := set3 s.weights 0 m kcol
        (get3 s.weights 0 m kcol + lam * get2 s.a 0 m * psik)
      { s with weights := wN }) s0).weights mm = getMat s0.weights mm) ∧
    (getMat (cfor bound (fun m s =>
      let wN := set3 s.weights 0 m kcol
        (get3 s.weights 0 m kcol + lam * get2 s.a 0 m * psik)
      { s with weights := wN }) s0).weights 0).length
        = (getMat s0.weights 0).length ∧
    (∀ m, (getRow (getMat (cfor bound (fun m s =>
      let wN := set3 s.weights 0 m kcol
        (get3 s.weights 0 m kcol + lam * get2 s.a 0 m * psik)
      { s with weights := wN }) s0).weights 0) m).length
        = (getRow (getMat s0.weights 0) m).length) ∧
    (∀ m, bound ≤ m → getRow (getMat (cfor bound (fun m s =>
      let wN := set3 s.weights 0 m kcol
        (get3 s.weights 0 m kcol + lam * get2 s.a 0 m * psik)
      { s with weights := wN }) s0).weights 0) m = getRow (getMat s0.weights 0) m) ∧
    (∀ m k', k' ≠ kcol → getV (getRow (getMat (cfor bound (fun m s =>
      let wN := set3 s.weights 0 m kcol
        (get3 s.weights 0 m kcol + lam * get2 s.a 0 m * psik)
      { s with weights := wN }) s0).weights 0) m) k'
        = getV (getRow (getMat s0.weights 0) m) k') ∧
    (∀ m, m < bound → getV (getRow (getMat (cfor bound (fun m s =>
      let wN := set3 s.weights 0 m kcol
        (get3 s.weights 0 m kcol + lam * get2 s.a 0 m * psik)
      { s with weights := wN }) s0).weights 0) m) kcol
        = getV (getRow (getMat s0.weights 0) m) kcol + lam * get2 s0.a 0 m * psik) := by
  have key := cfor_ind_lt (Q := fun c (s : NetState) =>
      s.a = s0.a ∧ s.theta = s0.theta ∧ s.psi = s0.psi ∧
      s.weights.length = s0.weights.length ∧
      (∀ mm, mm ≠ 0 → getMat s.weights mm = getMat s0.weights mm) ∧
      (getMat s.weights 0).length = (getMat s0.weights 0).length ∧
      (∀ m, (getRow (getMat s.weights 0) m).length
        = (getRow (getMat s0.weights 0) m).length) ∧
      (∀ m, c ≤ m → getRow (getMat s.weights 0) m = getRow (getMat s0.weights 0) m) ∧
      (∀ m k', k' ≠ kcol → getV (getRow (getMat s.weights 0) m) k'
        = getV (getRow (getMat s0.weights 0) m) k') ∧
      (∀ m, m < c → getV (getRow (getMat s.weights 0) m) kcol
        = getV (getRow (getMat s0.weights 0) m) kcol + lam * get2 s0.a 0 m * psik))
    (fun m s =>
      let wN := set3 s.weights 0 m kcol
        (get3 s.weights 0 m kcol + lam * get2 s.a 0 m * psik)
      { s with weights := wN }) s0 bound
    ⟨rfl, rfl, rfl, rfl, fun _ _ => rfl, rfl, fun _ => rfl, fun _ _ => rfl,
      fun _ _ _ => rfl, fun m hm => absurd hm (Nat.not_lt_zero m)⟩ ?_
  · exact ⟨key.1, key.2.1, key.2.2.1, key.2.2.2.1, key.2.2.2.2.1,
      key.2.2.2.2.2.1, key.2.2.2.2.2.2.1, key.2.2.2.2.2.2.2.1,
      key.2.2.2.2.2.2.2.2.1, key.2.2.2.2.2.2.2.2.2⟩
  intro c s hcb hp
  obtain ⟨ha, hth, hps, hwl, hmm, hm0l, hrl, hrows, hcolNe, hcolDone⟩ := hp
  have h02 : 0 < s.weights.length := by rw [hwl]; exact h0
  have hrowc : getRow (getMat s.weights 0) c = getRow (getMat s0.weights 0) c :=
    hrows c le_rfl
  have hmset : getMat (set3 s.weights 0 c kcol
      (get3 s.weights 0 c kcol + lam * get2 s.a 0 c * psik)) 0
      = set2 (getMat s.weights 0) c kcol
        (get3 s.weights 0 c kcol + lam * get2 s.a 0 c * psik) := by
    rw [set3]
    exact getMat_set_self _ h02
  have hcM : c < (getMat s.weights 0).length := by rw [hm0l]; omega
  have hval : get3 s.weights 0 c kcol = getV (getRow (getMat s0.weights 0) c) kcol := by
    show getV (getRow (getMat s.weights 0) c) kcol = _
    rw [hrowc]
  have hav : get2 s.a 0 c = get2 s0.a 0 c := by rw [ha]
  refine ⟨ha, hth, hps, ?_, ?_, ?_, ?_, ?_, ?_, ?_⟩
  · show (set3 s.weights 0 c kcol _).length = s0.weights.length
    rw [set3, List.length_set, hwl]
  · intro mm hmm2
    show getMat (set3 s.weights 0 c kcol _) mm = getMat s0.weights mm
    rw [set3, getMat_set_ne _ _ (fun h => hmm2 h.symm)]
    exact hmm mm hmm2
  · show (getMat (set3 s.weights 0 c kcol _) 0).length = (getMat s0.weights 0).length
    rw [hmset, set2, List.length_set, hm0l]
  · intro m
    show (getRow (getMat (set3 s.weights 0 c kcol _) 0) m).length
      = (getRow (getMat s0.weights 0) m).length
    rw [hmset, set2]
    by_cases hmc : m = c
    · subst hmc
      rw [getRow_set_self _ hcM, List.length_set]
      exact hrl m
    · rw [getRow_set_ne _ _ (fun h => hmc h.symm)]
      exact hrl m
  · intro m hm
    show getRow (getMat (set3 s.weights 0 c kcol _) 0) m = getRow (getMat s0.weights 0) m
    rw [hmset, set2, getRow_set_ne _ _ (by omega)]
    exact hrows m (by omega)
  · intro m k' hk'
    show getV (getRow (getMat (set3 s.weights 0 c kcol _) 0) m) k'
      = getV (getRow (getMat s0.weights 0) m) k'
    rw [hmset, set2]
    by_cases hmc : m = c
    · subst hmc
      rw [getRow_set_self _ hcM, getV_set_ne _ _ (fun h => hk' h.symm)]
      exact congrArg (fun r => getV r k') hrowc
    · rw [getRow_set_ne _ _ (fun h => hmc h.symm)]
      exact hcolNe m k' hk'
  · intro m hm
    show getV (getRow (getMat (set3 s.weights 0 c kcol _) 0) m) kcol
      = getV (getRow (getMat s0.weights 0) m) kcol + lam * get2 s0.a 0 m * psik
    rw [hmset, set2]
    by_cases hmc : m = c
    · subst hmc
      have hkl : kcol < ((getRow (getMat s.weights 0) m)).length := by
        rw [hrl m]
        exact hrow m hcb
      rw [getRow_set_self _ hcM, getV_set_self _ hkl, hval, hav]
    · have hm2 : m < c := by omega
      rw [getRow_set_ne _ _ (fun h => hmc h.symm)]
      exact hcolDone m hm2

/-- C6: in the boundary backward step `n = 1`, for every node `k` of
layer 1, `Ω` and `Ψk` are computed exactly as in the general recurrence —
`Ω` is the dot product of `psi[2]` with the pre-update row
`weights[1][k]`, each of whose elements is read before being incremented
by `λ * a[1][k] * psi[2][j]` in the same inner loop — and immediately
after `Ψk = Ω * f'(theta[1][k])` is computed, every input-layer weight
`weights[0][m][k]` is incremented by `λ * a[0][m] * Ψk` for all input
nodes `m`; no psi buffer is written at all (`psi` is unchanged — `Ψk`
lives only in a local, and layer 0 has no psi buffer). -/
theorem c6_boundary_backstep (lam : ℚ) (actP : ℚ → ℚ) (st : NetState)
    (h1 : 1 < st.weights.length)
    (hM1 : len st 1 ≤ (getMat st.weights 1).length)
    (hM0 : len st 0 ≤ (getMat st.weights 0).length)
    (hRow0 : ∀ m, m < len st 0 →
      len st 1 ≤ (getRow (getMat st.weights 0) m).length) :
    (backBoundary lam actP st).a = st.a ∧
    (backBoundary lam actP st).theta = st.theta ∧
    (backBoundary lam actP st).psi = st.psi ∧
    (backBoundary lam actP st).lengths = st.lengths ∧
    (∀ m, m ≠ 0 → m ≠ 1 →
      getMat (backBoundary lam actP st).weights m = getMat st.weights m) ∧
    (∀ k, len st 1 ≤ k →
      getRow (getMat (backBoundary lam actP st).weights 1) k
        = getRow (getMat st.weights 1) k) ∧
    (∀ k, k < len st 1 → ∀ j : ℕ,
      getV (getRow (getMat (backBoundary lam actP st).weights 1) k) j
        = if j < len st 2 ∧ j < (getRow (getMat st.weights 1) k).length
          then getV (getRow (getMat st.weights 1) k) j
            + lam * get2 st.a 1 k * getV (getRow st.psi 2) j
          else getV (getRow (getMat st.weights 1) k) j) ∧
    (∀ m, len st 0 ≤ m →
      getRow (getMat (backBoundary lam actP st).weights 0) m
        = getRow (getMat st.weights 0) m) ∧
    (∀ m k, len st 1 ≤ k →
      getV (getRow (getMat (backBoundary lam actP st).weights 0) m) k
        = getV (getRow (getMat st.weights 0) m) k) ∧
    (∀ m, m < len st 0 → ∀ k, k < len st 1 →
      getV (getRow (getMat (backBoundary lam actP st).weights 0) m) k
        = getV (getRow (getMat st.weights 0) m) k
          + lam * get2 st.a 0 m * specPsiOne actP st k) := by
  have hfr := backBoundary_frames lam actP st
  refine ⟨hfr.2.1, hfr.2.2.2.2.1, hfr.2.2.2.2.2, hfr.1, ?_⟩
  unfold backBoundary
  have key := cfor_ind_lt (Q := fun c (s : NetState) =>
      s.a = st.a ∧ s.theta = st.theta ∧ s.psi = st.psi ∧
      s.weights.length = st.weights.length ∧
      (∀ m, m ≠ 0 → m ≠ 1 → getMat s.weights m = getMat st.weights m) ∧
      (getMat s.weights 1).length = (getMat st.weights 1).length ∧
      (∀ k, c ≤ k → getRow (getMat s.weights 1) k = getRow (getMat st.weights 1) k) ∧
      (∀ k, k < c → ∀ j : ℕ, getV (getRow (getMat s.weights 1) k) j
        = if j < len st 2 ∧ j < (getRow (getMat st.weights 1) k).length
          then getV (getRow (getMat st.weights 1) k) j
            + lam * get2 st.a 1 k * getV (getRow st.psi 2) j
          else getV (getRow (getMat st.weights 1) k) j) ∧
      (getMat s.weights 0).length = (getMat st.weights 0).length ∧
      (∀ m, (getRow (getMat s.weights 0) m).length
        = (getRow (getMat st.weights 0) m).length) ∧
      (∀ m, len st 0 ≤ m →
        getRow (getMat s.weights 0) m = getRow (getMat st.weights 0) m) ∧
      (∀ m k, c ≤ k → getV (getRow (getMat s.weights 0) m) k
        = getV (getRow (getMat st.weights 0) m) k) ∧
      (∀ k, k < c → ∀ m, m < len st 0 →
        getV (getRow (getMat s.weights 0) m) k
          = getV (getRow (getMat st.weights 0) m) k
            + lam * get2 st.a 0 m * specPsiOne actP st k))
    (fun k s =>
      let r := backInner lam (get2 s.a 1 k) (getRow s.psi 2)
        (len st 2) (getRow (getMat s.weights 1) k)
      let s2 := { s with weights := setMatRow s.weights 1 k r.2 }
      let psik := r.1 * actP (get2 s2.theta 1 k)
      cfor (len st 0) (fun m s3 =>
        let wN := set3 s3.weights 0 m k
          (get3 s3.weights 0 m k + lam * get2 s3.a 0 m * psik)
        { s3 with weights := wN }) s2) st (len st 1)
    ⟨rfl, rfl, rfl, rfl, fun _ _ _ => rfl, rfl, fun _ _ => rfl,
      fun k hk => absurd hk (Nat.not_lt_zero k), rfl, fun _ => rfl,
      fun _ _ => rfl, fun _ _ _ => rfl,
      fun k hk => absurd hk (Nat.not_lt_zero k)⟩ ?_
  · exact ⟨key.2.2.2.2.1,
      fun k hk => key.2.2.2.2.2.2.1 k hk,
      fun k hk => key.2.2.2.2.2.2.2.1 k hk,
      fun m hm => key.2.2.2.2.2.2.2.2.2.2.1 m hm,
      fun m k hk => key.2.2.2.2.2.2.2.2.2.2.2.1 m k hk,
      fun m hm k hk => key.2.2.2.2.2.2.2.2.2.2.2.2 k hk m hm⟩
  intro c s hcb hp
  obtain ⟨ha, hth, hps, hwl, hother, hm1l, hw1row, hw1done, hm0l, hr0l,
    hr0rows, hcolKeep, hcolDone⟩ := hp
  have hrW1 : getRow (getMat s.weights 1) c = getRow (getMat st.weights 1) c :=
    hw1row c le_rfl
  have hpsi2 : getRow s.psi 2 = getRow st.psi 2 := by rw [hps]
  have hac : get2 s.a 1 c = get2 st.a 1 c := by rw [ha]
  have hthc : get2 s.theta 1 c = get2 st.theta 1 c := by rw [hth]
  have hr : backInner lam (get2 s.a 1 c) (getRow s.psi 2) (len st 2)
        (getRow (getMat s.weights 1) c)
      = backInner lam (get2 st.a 1 c) (getRow st.psi 2) (len st 2)
        (getRow (getMat st.weights 1) c) := by
    rw [hac, hpsi2, hrW1]
  obtain ⟨hr1, hr2len, hr2⟩ := backInner_char lam (get2 st.a 1 c)
    (getRow st.psi 2) (len st 2) (getRow (getMat st.weights 1) c)
  have h1s : 1 < s.weights.length := by rw [hwl]; exact h1
  -- facts about the intermediate state s2 (matrix 1 row c replaced)
  have hs2mat1 : getMat (setMatRow s.weights 1 c
      (backInner lam (get2 s.a 1 c) (getRow s.psi 2) (len st 2)
        (getRow (getMat s.weights 1) c)).2) 1
      = (getMat s.weights 1).set c
        (backInner lam (get2 s.a 1 c) (getRow s.psi 2) (len st 2)
          (getRow (getMat s.weights 1) c)).2 :=
    getMat_set_self _ h1s
  have hs2mat : ∀ m, m ≠ 1 → getMat (setMatRow s.weights 1 c
      (backInner lam (get2 s.a 1 c) (getRow s.psi 2) (len st 2)
        (getRow (getMat s.weights 1) c)).2) m = getMat s.weights m := by
    intro m hm
    exact getMat_set_ne _ _ (fun h => hm h.symm)
  have hcW1 : c < (getMat s.weights 1).length := by rw [hm1l]; omega
  set R := (backInner lam (get2 s.a 1 c) (getRow s.psi 2) (len st 2)
    (getRow (getMat s.weights 1) c)) with hR
  set s2 := { s with weights := setMatRow s.weights 1 c R.2 } with hs2
  have hs20 : getMat s2.weights 0 = getMat s.weights 0 := hs2mat 0 (by omega)
  -- apply the column-loop characterization
  have hcol := colLoop_char lam (R.1 * actP (get2 s2.theta 1 c)) c (len st 0) s2
    (by show 0 < (setMatRow s.weights 1 c R.2).length
        rw [setMatRow, List.length_set]
        omega)
    (by show len st 0 ≤ (getMat s2.weights 0).length
        rw [hs20, hm0l]
        exact hM0)
    (by intro m hm
        show c < (getRow (getMat s2.weights 0) m).length
        rw [hs20, hr0l m]
        have := hRow0 m hm
        omega)
  obtain ⟨hca, hcth, hcps, hcwl, hcmm, hcm0l, hcr0l, hcr0rows, hcolNe,
    hcolC⟩ := hcol
  have hpsikEq : R.1 * actP (get2 s2.theta 1 c) = specPsiOne actP st c := by
    have hs2th : get2 s2.theta 1 c = get2 st.theta 1 c := hthc
    rw [hs2th, hr, hr1]
    rfl
  refine ⟨?_, ?_, ?_, ?_, ?_, ?_, ?_, ?_, ?_, ?_, ?_, ?_, ?_⟩
  · exact hca.trans ha
  · exact hcth.trans hth
  · exact hcps.trans hps
  · show (cfor (len st 0) _ s2).weights.length = st.weights.length
    rw [hcwl]
    show (setMatRow s.weights 1 c R.2).length = st.weights.length
    rw [setMatRow, List.length_set, hwl]
  · intro m hm0 hm1
    have h2 := hcmm m hm0
    rw [h2]
    show getMat (setMatRow s.weights 1 c R.2) m = getMat st.weights m
    rw [hs2mat m hm1]
    exact hother m hm0 hm1
  · show (getMat (cfor (len st 0) _ s2).weights 1).length
      = (getMat st.weights 1).length
    rw [hcmm 1 (by omega)]
    show (getMat (setMatRow s.weights 1 c R.2) 1).length = _
    rw [hs2mat1, List.length_set, hm1l]
  · intro k hk
    rw [hcmm 1 (by omega)]
    show getRow (getMat (setMatRow s.weights 1 c R.2) 1) k
      = getRow (getMat st.weights 1) k
    rw [hs2mat1, getRow_set_ne _ _ (by omega)]
    exact hw1row k (by omega)
  · intro k hk j
    rw [hcmm 1 (by omega)]
    show getV (getRow (getMat (setMatRow s.weights 1 c R.2) 1) k) j = _
    rw [hs2mat1]
    by_cases hkc : k = c
    · subst hkc
      rw [getRow_set_self _ hcW1, hr]
      exact hr2 j
    · rw [getRow_set_ne _ _ (fun h => hkc h.symm)]
      exact hw1done k (by omega) j
  · show (getMat (cfor (len st 0) _ s2).weights 0).length
      = (getMat st.weights 0).length
    rw [hcm0l, hs20, hm0l]
  · intro m
    rw [hcr0l m]
    show (getRow (getMat s2.weights 0) m).length = _
    rw [hs20]
    exact hr0l m
  · intro m hm
    rw [hcr0rows m hm]
    show getRow (getMat s2.weights 0) m = getRow (getMat st.weights 0) m
    rw [hs20]
    exact hr0rows m hm
  · intro m k hk
    have hkc : k ≠ c := by omega
    rw [hcolNe m k hkc]
    show getV (getRow (getMat s2.weights 0) m) k = _
    rw [hs20]
    exact hcolKeep m k (by omega)
  · intro k hk m hm
    by_cases hkc : k = c
    · subst hkc
      rw [hcolC m hm, hpsikEq]
      have hs2a : get2 s2.a 0 m = get2 st.a 0 m := by
        show get2 s.a 0 m = get2 st.a 0 m
        rw [ha]
      rw [hs2a]
      show getV (getRow (getMat s2.weights 0) m) k + _ = _
      rw [hs20, hcolKeep m k le_rfl]
    · have hk2 : k < c := by omega
      rw [hcolNe m k hkc]
      show getV (getRow (getMat s2.weights 0) m) k = _
      rw [hs20]
      exact hcolDone k hk2 m hm

/-- C2: the general backward phase processes layers
`n = finalHiddenLayerIndex = L-2` down to `2` (iteration `i` handles
layer `L-2-i`), and its resulting psi values and weights equal exactly
the read-then-write-per-`(k,j)` recurrence: `psi[n][k]` is
`specPsiAux (L-1-n) k` — `Ω` accumulated from `psi[n+1]` and the
pre-update weights, with every weight element read for `Ω` before that
same element is incremented in the same inner loop, and `psi[n][k]` set
only after the inner loop — and `weights[n][k][j]` receives exactly one
increment `λ * a[n][k] * psi[n+1][j]`.  Layers outside the range (the
output psi row and the matrices of intervals 0 and 1) are untouched. -/
theorem c2_backprop_general_recurrence (lam : ℚ) (actP : ℚ → ℚ)
    (st : NetState) (hL : 3 ≤ L st)
    (hWL : L st - 1 ≤ st.weights.length)
    (hPL : L st - 1 ≤ st.psi.length)
    (hW : ∀ n, n < L st → 2 ≤ n → n + 2 ≤ L st →
      len st n ≤ (getMat st.weights n).length)
    (hP : ∀ n, n < L st → 2 ≤ n → n + 2 ≤ L st →
      len st n ≤ (getRow st.psi n).length) :
    (backGeneralPhase lam actP st).a = st.a ∧
    (backGeneralPhase lam actP st).theta = st.theta ∧
    (backGeneralPhase lam actP st).lengths = st.lengths ∧
    getRow (backGeneralPhase lam actP st).psi (L st - 1)
      = getRow st.psi (L st - 1) ∧
    getMat (backGeneralPhase lam actP st).weights 0 = getMat st.weights 0 ∧
    getMat (backGeneralPhase lam actP st).weights 1 = getMat st.weights 1 ∧
    (∀ n, 2 ≤ n → n + 2 ≤ L st → ∀ k, k < len st n →
      getV (getRow (backGeneralPhase lam actP st).psi n) k
        = specPsiAux actP st (L st - 1 - n) k) ∧
    (∀ n, 2 ≤ n → n + 2 ≤ L st → ∀ k, k < len st n → ∀ j, j < len st (n + 1) →
      j < (getRow (getMat st.weights n) k).length →
      getV (getRow (getMat (backGeneralPhase lam actP st).weights n) k) j
        = getV (getRow (getMat st.weights n) k) j
          + lam * get2 st.a n k * specPsiAux actP st (L st - 2 - n) j) := by
  unfold backGeneralPhase
  have key := cfor_ind_lt (Q := fun d (s : NetState) =>
      s.a = st.a ∧ s.theta = st.theta ∧ s.lengths = st.lengths ∧
      s.weights.length = st.weights.length ∧ s.psi.length = st.psi.length ∧
      (∀ m, m + d ≤ L st - 2 ∨ L st - 2 < m →
        getMat s.weights m = getMat st.weights m) ∧
      (∀ m, m + d ≤ L st - 2 ∨ L st - 2 < m →
        getRow s.psi m = getRow st.psi m) ∧
      (∀ i, i < d →
        (∀ k, k < len st (L st - 2 - i) →
          getV (getRow s.psi (L st - 2 - i)) k = specPsiAux actP st (i + 1) k) ∧
        (∀ k, k < len st (L st - 2 - i) → ∀ j, j < len st (L st - 1 - i) →
          j < (getRow (getMat st.weights (L st - 2 - i)) k).length →
          getV (getRow (getMat s.weights (L st - 2 - i)) k) j
            = getV (getRow (getMat st.weights (L st - 2 - i)) k) j
              + lam * get2 st.a (L st - 2 - i) k * specPsiAux actP st i j)))
    (fun i s => backLayerStep lam actP (L st - 2 - i) s) st (L st - 3)
    ⟨rfl, rfl, rfl, rfl, rfl, fun _ _ => rfl, fun _ _ => rfl,
      fun i hi => absurd hi (Nat.not_lt_zero i)⟩ ?_
  · obtain ⟨ka, kth, klen, _, _, kmat, kpsi, kdone⟩ := key
    refine ⟨ka, kth, klen, kpsi (L st - 1) (by omega),
      kmat 0 (by omega), kmat 1 (by omega), ?_, ?_⟩
    · intro n hn2 hnL k hk
      have hi : L st - 2 - n < L st - 3 := by omega
      have he : L st - 2 - (L st - 2 - n) = n := by omega
      have he2 : L st - 2 - n + 1 = L st - 1 - n := by omega
      have h := (kdone (L st - 2 - n) hi).1 k (by rw [he]; exact hk)
      rw [he, he2] at h
      exact h
    · intro n hn2 hnL k hk j hj hjr
      have hi : L st - 2 - n < L st - 3 := by omega
      have he : L st - 2 - (L st - 2 - n) = n := by omega
      have he1 : L st - 1 - (L st - 2 - n) = n + 1 := by omega
      have h := (kdone (L st - 2 - n) hi).2 k (by rw [he]; exact hk) j
        (by rw [he1]; exact hj) (by rw [he]; exact hjr)
      rw [he] at h
      exact h
  intro c s hcb hp
  obtain ⟨ha, hth, hlen, hwl, hpl, hmat, hpsi, hdone⟩ := hp
  have hlenEq : ∀ m, len s m = len st m := by
    intro m
    show s.lengths.getD m 0 = st.lengths.getD m 0
    rw [hlen]
  have hn2 : 2 ≤ L st - 2 - c := by omega
  have hmatn : getMat s.weights (L st - 2 - c) = getMat st.weights (L st - 2 - c) :=
    hmat _ (Or.inl (by omega))
  have hpsin : getRow s.psi (L st - 2 - c) = getRow st.psi (L st - 2 - c) :=
    hpsi _ (Or.inl (by omega))
  have char := backLayerStep_char lam actP (L st - 2 - c) s
    (by rw [hwl]; omega)
    (by rw [hlenEq, hmatn]; exact hW _ (by omega) hn2 (by omega))
    (by rw [hpl]; omega)
    (by rw [hlenEq, hpsin]; exact hP _ (by omega) hn2 (by omega))
  obtain ⟨cwl, cpl, cwm, cpm, _, _, _, _, cdone⟩ := char
  have hpsiNext : ∀ j, j < len st (L st - 1 - c) →
      getV (getRow s.psi (L st - 2 - c + 1)) j = specPsiAux actP st c j := by
    intro j hj
    have he : L st - 2 - c + 1 = L st - 1 - c := by omega
    rw [he]
    by_cases hc0 : c = 0
    · subst hc0
      have he2 : L st - 1 - 0 = L st - 1 := by omega
      rw [he2]
      have hrow := hpsi (L st - 1) (Or.inr (by omega))
      rw [hrow]
      rfl
    · have hi : c - 1 < c := by omega
      have he3 : L st - 2 - (c - 1) = L st - 1 - c := by omega
      have h := (hdone (c - 1) hi).1 j (by rw [he3]; exact hj)
      rw [he3] at h
      have he4 : c - 1 + 1 = c := by omega
      rw [he4] at h
      exact h
  refine ⟨?_, ?_, ?_, ?_, ?_, ?_, ?_, ?_⟩
  · exact (backLayerStep_frames lam actP (L st - 2 - c) s).2.1.trans ha
  · exact (backLayerStep_frames lam actP (L st - 2 - c) s).2.2.2.2.trans hth
  · exact (backLayerStep_frames lam actP (L st - 2 - c) s).1.trans hlen
  · rw [cwl, hwl]
  · rw [cpl, hpl]
  · intro m hm
    have hne : m ≠ L st - 2 - c := by omega
    rw [cwm m hne]
    exact hmat m (by omega)
  · intro m hm
    have hne : m ≠ L st - 2 - c := by omega
    rw [cpm m hne]
    exact hpsi m (by omega)
  · intro i hi
    by_cases hic : i = c
    · subst hic
      constructor
      · intro k hk
        have hkl : k < len s (L st - 2 - i) := by rw [hlenEq]; exact hk
        have h := (cdone k hkl).2.1
        rw [h]
        show (∑ j ∈ Finset.range (len s (L st - 2 - i + 1)),
          getV (getRow s.psi (L st - 2 - i + 1)) j
            * getV (getRow (getMat s.weights (L st - 2 - i)) k) j)
          * actP (get2 s.theta (L st - 2 - i) k) = specPsiAux actP st (i + 1) k
        have hsum : ∑ j ∈ Finset.range (len s (L st - 2 - i + 1)),
            getV (getRow s.psi (L st - 2 - i + 1)) j
              * getV (getRow (getMat s.weights (L st - 2 - i)) k) j
            = ∑ j ∈ Finset.range (len st (L st - 1 - i)),
                specPsiAux actP st i j * get3 st.weights (L st - 2 - i) k j := by
          rw [hlenEq]
          have he : L st - 2 - i + 1 = L st - 1 - i := by omega
          rw [he]
          refine Finset.sum_congr rfl (fun j hj => ?_)
          have hj2 : j < len st (L st - 1 - i) := Finset.mem_range.1 hj
          have h1 := hpsiNext j hj2
          have he2 : L st - 2 - i + 1 = L st - 1 - i := by omega
          rw [he2] at h1
          rw [h1, hmatn]
          rfl
        rw [hsum]
        have hthk : get2 s.theta (L st - 2 - i) k = get2 st.theta (L st - 2 - i) k := by
          rw [hth]
        rw [hthk]
        rfl
      · intro k hk j hj hjr
        have hkl : k < len s (L st - 2 - i) := by rw [hlenEq]; exact hk
        have h := (cdone k hkl).2.2 j
        rw [h]
        have hcond : j < len s (L st - 2 - i + 1)
            ∧ j < (getRow (getMat s.weights (L st - 2 - i)) k).length := by
          constructor
          · rw [hlenEq]
            have he : L st - 2 - i + 1 = L st - 1 - i := by omega
            rw [he]
            exact hj
          · rw [hmatn]
            exact hjr
        rw [if_pos hcond, hmatn]
        have hak : get2 s.a (L st - 2 - i) k = get2 st.a (L st - 2 - i) k := by
          rw [ha]
        have he3 : L st - 2 - i + 1 = L st - 1 - i := by omega
        have hpn := hpsiNext j hj
        rw [hak, hpn]
    · have hi2 : i < c := by omega
      have hne : L st - 2 - i ≠ L st - 2 - c := by omega
      constructor
      · intro k hk
        rw [cpm _ hne]
        exact (hdone i hi2).1 k hk
      · intro k hk j hj hjr
        rw [cwm _ hne]
        exact (hdone i hi2).2 k hk j hj hjr

/-- Witness for C2 at the concrete 1-1-1-1 network `stC` with `λ = 1`. -/
theorem c2_backprop_general_recurrence_witness :
    (3 ≤ L stC ∧ L stC - 1 ≤ stC.weights.length ∧ L stC - 1 ≤ stC.psi.length ∧
     (∀ n, n < L stC → 2 ≤ n → n + 2 ≤ L stC →
       len stC n ≤ (getMat stC.weights n).length) ∧
     (∀ n, n < L stC → 2 ≤ n → n + 2 ≤ L stC →
       len stC n ≤ (getRow stC.psi n).length)) ∧
    ((backGeneralPhase 1 idQ stC).a = stC.a ∧
     (backGeneralPhase 1 idQ stC).theta = stC.theta ∧
     (backGeneralPhase 1 idQ stC).lengths = stC.lengths ∧
     getRow (backGeneralPhase 1 idQ stC).psi (L stC - 1)
       = getRow stC.psi (L stC - 1) ∧
     getMat (backGeneralPhase 1 idQ stC).weights 0 = getMat stC.weights 0 ∧
     getMat (backGeneralPhase 1 idQ stC).weights 1 = getMat stC.weights 1 ∧
     (∀ n, 2 ≤ n → n + 2 ≤ L stC → ∀ k, k < len stC n →
       getV (getRow (backGeneralPhase 1 idQ stC).psi n) k
         = specPsiAux idQ stC (L stC - 1 - n) k) ∧
     (∀ n, 2 ≤ n → n + 2 ≤ L stC → ∀ k, k < len stC n →
       ∀ j, j < len stC (n + 1) →
       j < (getRow (getMat stC.weights n) k).length →
       getV (getRow (getMat (backGeneralPhase 1 idQ stC).weights n) k) j
         = getV (getRow (getMat stC.weights n) k) j
           + 1 * get2 stC.a n k * specPsiAux idQ stC (L stC - 2 - n) j)) :=
  ⟨⟨by decide, by decide, by decide, by decide, by decide⟩,
    c2_backprop_general_recurrence 1 idQ stC (by decide) (by decide)
      (by decide) (by decide) (by decide)⟩

/-- Witness for C6 at the concrete 1-1-1 network `stB` with `λ = 1`. -/
theorem c6_boundary_backstep_witness :
    (1 < stB.weights.length ∧ len stB 1 ≤ (getMat stB.weights 1).length ∧
     len stB 0 ≤ (getMat stB.weights 0).length ∧
     (∀ m, m < len stB 0 →
       len stB 1 ≤ (getRow (getMat stB.weights 0) m).length)) ∧
    ((backBoundary 1 idQ stB).a = stB.a ∧
     (backBoundary 1 idQ stB).theta = stB.theta ∧
     (backBoundary 1 idQ stB).psi = stB.psi ∧
     (backBoundary 1 idQ stB).lengths = stB.lengths ∧
     (∀ m, m ≠ 0 → m ≠ 1 →
       getMat (backBoundary 1 idQ stB).weights m = getMat stB.weights m) ∧
     (∀ k, len stB 1 ≤ k →
       getRow (getMat (backBoundary 1 idQ stB).weights 1) k
         = getRow (getMat stB.weights 1) k) ∧
     (∀ k, k < len stB 1 → ∀ j : ℕ,
       getV (getRow (getMat (backBoundary 1 idQ stB).weights 1) k) j
         = if j < len stB 2 ∧ j < (getRow (getMat stB.weights 1) k).length
           then getV (getRow (getMat stB.weights 1) k) j
             + 1 * get2 stB.a 1 k * getV (getRow stB.psi 2) j
           else getV (getRow (getMat stB.weights 1) k) j) ∧
     (∀ m, len stB 0 ≤ m →
       getRow (getMat (backBoundary 1 idQ stB).weights 0) m
         = getRow (getMat stB.weights 0) m) ∧
     (∀ m k, len stB 1 ≤ k →
       getV (getRow (getMat (backBoundary 1 idQ stB).weights 0) m) k
         = getV (getRow (getMat stB.weights 0) m) k) ∧
     (∀ m, m < len stB 0 → ∀ k, k < len stB 1 →
       getV (getRow (getMat (backBoundary 1 idQ stB).weights 0) m) k
         = getV (getRow (getMat stB.weights 0) m) k
           + 1 * get2 stB.a 0 m * specPsiOne idQ stB k)) :=
  ⟨⟨by decide, by decide, by decide, by decide⟩,
    c6_boundary_backstep 1 idQ stB (by decide) (by decide) (by decide)
      (by decide)⟩

end NN
